import Mathlib

/-!
Shallow embedding of the sudoku board logic of `src/app/sudoku.js` (the React
component `Sudoku`).  JavaScript objects become structures, in-place mutation
becomes functional update, and the relevant `useState` hooks become fields of
an explicit `AppState` threaded through the event handlers.  Guess indices are
JS numbers whose sentinel -1 is meaningful, so they are modelled as `Int`;
schema version numbers (1.0 .. 1.5) are modelled as `ℚ`.

Where the JS code would throw on an out-of-range read (`cells[r][c]` with bad
indices, `guesses[g]` with `g` outside the list) the embedding reads a default
value instead; the claims below either supply in-range hypotheses or concern
states in which every such read is in range.

The JS snapshots stored in the undo history alias live cell objects; here they
are stored as immutable values.  The two views diverge only when further edits
intervene between recording an entry and undoing/redoing it, which is outside
the scope of the claims ("undo then immediately redo", "undo immediately
afterwards", "redo after a fresh edit is a no-op").
-/

namespace Sudoku

/-- One cell of the board: `{ val, guess, group, color?, error? }` in the JS
config.  In JS, `error` is `undefined` or `true`; `undefined` is modelled as
`false`.  `color` is the optional per-cell override (absent by default). -/
structure Cell where
  val : String
  guess : Int
  group : Nat
  color : Option String := none
  error : Bool := false
deriving DecidableEq, Repr

/-- One guess style: `{ color, isSmall, editable }`. -/
structure GuessStyle where
  color : String
  isSmall : Bool
  editable : Bool
deriving DecidableEq, Repr

/-- One group: `{ color }`. -/
structure Group where
  color : String
deriving DecidableEq, Repr

/-- The versioned configuration document (the `config` state of `Sudoku`). -/
structure Config where
  version : ℚ
  dimensions : Nat × Nat
  cells : List (List Cell)
  groups : List Group
  guesses : List GuessStyle
  type : String
  elapsed : Nat
deriving DecidableEq, Repr

abbrev Cells := List (List Cell)

def defaultCell : Cell := { val := "", guess := -1, group := 0 }

/-- Read `cells[r][c]`.  An out-of-range read (a crash in JS) yields
`defaultCell`. -/
def cellAt (g : Cells) (r c : Nat) : Cell := (g.getD r []).getD c defaultCell

/-- Apply `f` to the element at index `n` (no-op when out of range): the
functional rendering of the in-place update `l[n] = f(l[n])`. -/
def modifyAt (f : α → α) : Nat → List α → List α
  | _, [] => []
  | 0, a :: l => f a :: l
  | n + 1, a :: l => a :: modifyAt f n l

/-- In-place update of the single cell `cells[r][c]`. -/
def modifyCell (g : Cells) (r c : Nat) (f : Cell → Cell) : Cells :=
  modifyAt (modifyAt f c) r g

/-- Forget a cell's transient error flag (`cell.error = undefined`). -/
def stripCell (cell : Cell) : Cell := { cell with error := false }

/-- Forget all error flags.  `validate` starts by doing exactly this. -/
def stripErrors (g : Cells) : Cells := g.map (·.map stripCell)

/-!  ## Board geometry: `getGroup`

`const getGroup = (r, c, gHeight, gWidth, dimensions) => { ... }` computes
`Math.floor(c / gWidth) + numCols * Math.floor(r / gHeight)` with
`numCols = width / gWidth` (true JS division, not floored; the source also
computes `numRows = height / gHeight`, which is unused).  JS numbers are
modelled by `ℚ`. -/
def getGroup (r c gHeight gWidth : ℚ) (dimensions : ℚ × ℚ) : ℚ :=
  let width := dimensions.2
  let numCols := width / gWidth
  (⌊c / gWidth⌋ : ℚ) + numCols * (⌊r / gHeight⌋ : ℚ)

/-- Modelled from the spec: "index = ⌊col / groupWidth⌋ + (width / groupWidth)
× ⌊row / groupHeight⌋" — the spec's formula for the box index, to be compared
with `getGroup` from the source. -/
def groupIndexSpec (r c gHeight gWidth w : ℚ) : ℚ :=
  (⌊c / gWidth⌋ : ℚ) + (w / gWidth) * (⌊r / gHeight⌋ : ℚ)

/-- `getGroup` restricted to natural-number inputs with the group dimensions
dividing the board dimensions, where the JS divisions are exact and floors
become `Nat` division (the bridge to `getGroup` is proved below). -/
def getGroupNat (r c gh gw w : Nat) : Nat :=
  c / gw + (w / gw) * (r / gh)

/-!  ## Uniqueness checking: `isSmallGuess`, `allUnique` -/

/-- `(cell) => cell.guess !== -1 && newConfig.guesses[cell.guess].isSmall`.
A negative guess other than -1 would crash in JS; only -1 occurs. -/
def isSmallGuess (guesses : List GuessStyle) (cell : Cell) : Bool :=
  cell.guess != -1 &&
    (match cell.guess with
     | Int.ofNat n => ((guesses.get? n).map GuessStyle.isSmall).getD false
     | Int.negSucc _ => false)

/-- The display character a cell contributes to the duplicate check:
`cellList.map(cell => isSmallGuess(cell) ? '' : cell.val)`. -/
def displayVal (guesses : List GuessStyle) (cell : Cell) : String :=
  if isSmallGuess guesses cell then "" else cell.val

/-- `list.map((v, i) => v !== '' ? v : i)`: each non-empty value stands for
itself, each empty value for its (unique) position.  In JS the resulting set
mixes strings and numbers, which never collide; here they live in a sum type.
The position counter `i` is threaded explicitly to mirror the enumeration. -/
def setKeys : Nat → List String → List (String ⊕ Nat)
  | _, [] => []
  | i, v :: vs => (if v = "" then Sum.inr i else Sum.inl v) :: setKeys (i + 1) vs

/-- `new Set(keys).size === list.length`: the set size is the number of
distinct keys, i.e. the length of `keys.dedup`. -/
def allUniqueTest (guesses : List GuessStyle) (cellList : List Cell) : Bool :=
  let list := cellList.map (displayVal guesses)
  let keys := setKeys 0 list
  keys.dedup.length == keys.length

/-- `allUnique(cellList)`: returns whether the partition is duplicate-free and
(functionally) the cell list with `error = true` written to every member when
it is not.  The JS function mutates the shared cell objects; the grid-level
rendering used inside `validate` is `allUniqueCoords` below. -/
def allUnique (guesses : List GuessStyle) (cellList : List Cell) : Bool × List Cell :=
  let u := allUniqueTest guesses cellList
  (u, if u then cellList else cellList.map (fun cell => { cell with error := true }))

/-!  ## The validation engine: `validate`

`allUnique` mutates cells shared between the row/column/box lists and the
grid, so at grid level the partitions are represented by coordinate lists and
the error marks are written back into the grid.  The marks never change the
fields `allUnique` reads (`val`, `guess`, `group`) nor any list length, so
this is observationally the JS behaviour. -/

/-- Write `error = true` to every listed coordinate. -/
def markCoords (g : Cells) (coords : List (Nat × Nat)) : Cells :=
  coords.foldl (fun g rc => modifyCell g rc.1 rc.2 (fun cell => { cell with error := true })) g

/-- Grid-level `allUnique`: test the cells at `coords` and mark them all on
failure. -/
def allUniqueCoords (guesses : List GuessStyle) (g : Cells) (coords : List (Nat × Nat)) :
    Bool × Cells :=
  let u := allUniqueTest guesses (coords.map fun rc => cellAt g rc.1 rc.2)
  (u, if u then g else markCoords g coords)

/-- The indices selected by `list.slice(start, start + len)` on a list of
length `total` (JS `slice` clamps at the end of the list). -/
def sliceIdxs (start len total : Nat) : List Nat :=
  (List.range (min len (total - start))).map (start + ·)

/-- Coordinates of `fullRow.slice(firstCol, firstCol + sideLength)` for row
`r`. -/
def rowCoords (g : Cells) (r firstCol sideLength : Nat) : List (Nat × Nat) :=
  (sliceIdxs firstCol sideLength (g.getD r []).length).map (fun c => (r, c))

/-- `row.find(cell => cell.val === '' || isSmallGuess(cell)) === undefined`. -/
def rowFilled (guesses : List GuessStyle) (g : Cells) (coords : List (Nat × Nat)) : Bool :=
  coords.all fun rc =>
    let cell := cellAt g rc.1 rc.2
    !(cell.val == "" || isSmallGuess guesses cell)

/-- The bucket picked for the cell at slice-relative position `(i, j)`:
`Math.floor((Math.floor(r / groupHeight) * sideLength + c) / groupWidth)`. -/
def boxKey (gh gw sideLength i j : Nat) : Nat :=
  ((i / gh) * sideLength + j) / gw

/-- The (relative, absolute) coordinate pairs of the region slice, in the
row-major order of the source's `Object.entries` loops. -/
def regionRelAbs (g : Cells) (firstRow firstCol sideLength : Nat) :
    List ((Nat × Nat) × (Nat × Nat)) :=
  ((sliceIdxs firstRow sideLength g.length).enum).flatMap fun p =>
    ((sliceIdxs firstCol sideLength (g.getD p.2 []).length).enum).map fun q =>
      ((p.1, q.1), (p.2, q.2))

/-- The `cellGroups` buckets in the regular-box branch: `numGroups` buckets
(`((firstRow + sideLength) / groupHeight) * ((firstCol + sideLength) /
groupWidth)` of them, possibly more than are ever filled), bucket `gi`
receiving the slice cells whose `boxKey` is `gi`, in row-major order. -/
def boxPartitions (g : Cells) (firstRow firstCol sideLength gh gw : Nat) :
    List (List (Nat × Nat)) :=
  let numGroups := ((firstRow + sideLength) / gh) * ((firstCol + sideLength) / gw)
  let pairs := regionRelAbs g firstRow firstCol sideLength
  (List.range numGroups).map fun gi =>
    (pairs.filter fun p => boxKey gh gw sideLength p.1.1 p.1.2 == gi).map (·.2)

/-- Every coordinate of the whole board, row-major. -/
def allCoords (g : Cells) : List (Nat × Nat) :=
  g.enum.flatMap fun p => (List.range p.2.length).map fun c => (p.1, c)

/-- The `cellGroups` buckets in the squiggly branch: one bucket per configured
group, filled from every cell of the whole board by its stored `group` index.
A cell with an out-of-range `group` would crash in JS; here it is dropped. -/
def groupPartitions (g : Cells) (groupsCfg : List Group) : List (List (Nat × Nat)) :=
  (List.range groupsCfg.length).map fun gi =>
    (allCoords g).filter fun rc => (cellAt g rc.1 rc.2).group == gi

/-- One step of the row loop: `isValid = allUnique(row) && isValid;
isFilled = isFilled && row.find(...) === undefined`. -/
def rowStep (guesses : List GuessStyle) (firstCol sideLength : Nat)
    (acc : Cells × Bool × Bool) (r : Nat) : Cells × Bool × Bool :=
  let coords := rowCoords acc.1 r firstCol sideLength
  let p := allUniqueCoords guesses acc.1 coords
  (p.2, p.1 && acc.2.1, acc.2.2 && rowFilled guesses acc.1 coords)

/-- One step of the column and box loops: `isValid = allUnique(part) &&
isValid`. -/
def uniquePairStep (guesses : List GuessStyle) (acc : Cells × Bool)
    (coords : List (Nat × Nat)) : Cells × Bool :=
  let p := allUniqueCoords guesses acc.1 coords
  (p.2, p.1 && acc.2)

/-- `defaultValidate(ops)`: validate all rows, then all columns, then all
boxes of the region anchored at `(firstRow, firstCol)`, accumulating validity
and (from the rows only) filledness. -/
def defaultValidate (groupsCfg : List Group) (guesses : List GuessStyle)
    (firstRow firstCol sideLength : Nat) (boxDims : Option (Nat × Nat))
    (g : Cells) : Cells × Bool × Bool :=
  let rowIdxs := sliceIdxs firstRow sideLength g.length
  let o1 := rowIdxs.foldl (rowStep guesses firstCol sideLength) (g, true, true)
  let colParts := (List.range sideLength).map fun k => rowIdxs.map fun r => (r, firstCol + k)
  let o2 := colParts.foldl (uniquePairStep guesses) (o1.1, o1.2.1)
  let parts := match boxDims with
    | some bd => boxPartitions o2.1 firstRow firstCol sideLength bd.1 bd.2
    | none => groupPartitions o2.1 groupsCfg
  let o3 := parts.foldl (uniquePairStep guesses) o2
  (o3.1, o3.2, o1.2.2)

/-- The five samurai regions beyond the first: `[[0,12],[6,6],[12,0],[12,12]]`. -/
def samuraiRegions : List (Nat × Nat) := [(0, 12), (6, 6), (12, 0), (12, 12)]

/-- One samurai region: run `defaultValidate` anchored at `fs`, accumulating
`isValid` and `isFilled`. -/
def samuraiStep (groupsCfg : List Group) (guesses : List GuessStyle)
    (acc : Cells × Bool × Bool) (fs : Nat × Nat) : Cells × Bool × Bool :=
  let d := defaultValidate groupsCfg guesses fs.1 fs.2 9 (some (3, 3)) acc.1
  (d.1, d.2.1 && acc.2.1, d.2.2 && acc.2.2)

/-- The X extension: validate the two full diagonals (`cells[i][i]` and
`cells[i][8 - i]` for `i < 9`) on top of the base result. -/
def xDiagonals (guesses : List GuessStyle) (o1 : Cells × Bool × Bool) : Cells × Bool :=
  let a := allUniqueCoords guesses o1.1 ((List.range 9).map fun i => (i, i))
  let b := allUniqueCoords guesses a.2 ((List.range 9).map fun i => (i, 8 - i))
  (b.2, o1.2.1 && a.1 && b.1)

/-- The samurai extension: the four remaining regions folded over the base
result. -/
def samuraiExtension (groupsCfg : List Group) (guesses : List GuessStyle)
    (o : Cells × Bool × Bool) : Cells × Bool × Bool :=
  samuraiRegions.foldl (samuraiStep groupsCfg guesses) o

/-- The body of `validate` after the `ops` record has been filled in from the
type tag: `defaultValidate` on the base region, then the X diagonals when
`isX`, then the other four samurai regions when `isSamurai`. -/
def validateCellsOps (groupsCfg : List Group) (guesses : List GuessStyle)
    (sideLength : Nat) (boxDims : Option (Nat × Nat)) (isX isSamurai : Bool)
    (cells0 : Cells) : Cells × Bool × Bool :=
  let o1 := defaultValidate groupsCfg guesses 0 0 sideLength boxDims cells0
  let o2 := if isX then xDiagonals guesses o1 else (o1.1, o1.2.1)
  let o3 :=
    if isSamurai then samuraiExtension groupsCfg guesses (o2.1, o2.2, o1.2.2)
    else (o2.1, o2.2, o1.2.2)
  o3

/-- Everything `validate` does to the (already error-cleared) cell grid, as a
function of the fields it reads: the type tag selects side length, box
dimensions and the variant extensions, exactly as the `ops` mutations and
type comparisons do in the source. -/
def validateCells (type : String) (groupsCfg : List Group) (guesses : List GuessStyle)
    (cells0 : Cells) : Cells × Bool × Bool :=
  validateCellsOps groupsCfg guesses
    (if type = "12x12" then 12 else if type = "16x16" then 16 else 9)
    (if type = "12x12" then some (3, 4)
     else if type = "16x16" then some (4, 4)
     else if type = "squiggly" then none
     else some (3, 3))
    (type == "x") (type == "samurai") cells0

/-- `validate(c)`: `none` is the early `return` for type `other` (nothing is
touched and nothing signalled); otherwise the error flags are cleared, the
partitions checked and re-marked, and `(newConfig, isValid, isFilled)`
returned. -/
def validateConfig (c : Config) : Option (Config × Bool × Bool) :=
  if c.type = "other" then none
  else
    let out := validateCells c.type c.groups c.guesses (stripErrors c.cells)
    some ({ c with cells := out.1 }, out.2.1, out.2.2)

/-!  ## App state and the undo/redo log -/

/-- One record of the undo history: a full snapshot pair
`{ type: FULL, prevCells, newCells }` or a single-cell diff
`{ type: DIFF, coords, prevVal, newVal }`. -/
inductive UndoRecord where
  | full (prevCells newCells : Cells)
  | diff (coords : Nat × Nat) (prevVal newVal : String)
deriving DecidableEq, Repr

/-- The `useState` hooks of `Sudoku` that the claims touch: the config
document, the current guess index, the timer flag, the validation message
(`some true` = the "valid" message, `some false` = the "error" message), a
count of solved alerts raised, and the undo log with its cursor. -/
structure AppState where
  config : Config
  currGuess : Nat := 0
  timerStarted : Bool := false
  validationState : Option Bool := none
  alerts : Nat := 0
  undoHistory : List UndoRecord := []
  undoIndex : Int := -1
deriving DecidableEq, Repr

/-- The tail of `validate(c)` after `setConfig(c)` has run: on the early
`other` return the config stays `c` and no state is touched; otherwise the
re-marked config is stored, the validation message set, and on a valid and
filled board the solved alert fires and the timer stops. -/
def applyValidate (s : AppState) (c : Config) : AppState :=
  match validateConfig c with
  | none => { s with config := c }
  | some out =>
      { s with
        config := out.1,
        validationState := some out.2.1,
        alerts := if out.2.1 && out.2.2 then s.alerts + 1 else s.alerts,
        timerStarted := if out.2.1 && out.2.2 then false else s.timerStarted }

/-- The config `validate(c)` leaves in place. -/
def validatedConfig (c : Config) : Config :=
  match validateConfig c with
  | none => c
  | some out => out.1

/-- `addUndoFull(prevCells, newCells)`: truncate the future
(`slice(0, undoIndex + 1)`), append, advance the cursor.  (For
`undoIndex < -1`, unreachable in the app, JS `slice` would instead count from
the end.) -/
def addUndoFull (prevCells newCells : Cells) (s : AppState) : AppState :=
  { s with
    undoHistory :=
      s.undoHistory.take (s.undoIndex + 1).toNat ++ [UndoRecord.full prevCells newCells],
    undoIndex := s.undoIndex + 1 }

/-- `addUndoDiff(coords, prevVal, newVal)`: same cursor discipline with a
single-cell record. -/
def addUndoDiff (coords : Nat × Nat) (prevVal newVal : String) (s : AppState) : AppState :=
  { s with
    undoHistory :=
      s.undoHistory.take (s.undoIndex + 1).toNat ++ [UndoRecord.diff coords prevVal newVal],
    undoIndex := s.undoIndex + 1 }

/-- `undo()`: no-op at the -1 sentinel; otherwise apply the inverse of the
record at the cursor (restore `prevCells`, or write `prevVal` back to the one
coordinate — only `val` is written), re-run validation, decrement the cursor.
The `none` branch (cursor beyond the history) would crash in JS and is
unreachable under the app's cursor invariant. -/
def undo (s : AppState) : AppState :=
  if s.undoIndex > -1 then
    match s.undoHistory.get? s.undoIndex.toNat with
    | some (UndoRecord.full prevCells _) =>
        let cfg := { s.config with cells := prevCells }
        let s1 := applyValidate { s with config := cfg } cfg
        { s1 with undoIndex := s.undoIndex - 1 }
    | some (UndoRecord.diff rc prevVal _) =>
        let cells1 := modifyCell s.config.cells rc.1 rc.2 fun cell => { cell with val := prevVal }
        let cfg := { s.config with cells := cells1 }
        let s1 := applyValidate { s with config := cfg } cfg
        { s1 with undoIndex := s.undoIndex - 1 }
    | none => s
  else s

/-- `redo()`: no-op at the last record; otherwise advance the cursor and apply
the forward direction of the new current record, re-running validation. -/
def redo (s : AppState) : AppState :=
  if s.undoIndex < (s.undoHistory.length : Int) - 1 then
    let newIndex := s.undoIndex + 1
    match s.undoHistory.get? newIndex.toNat with
    | some (UndoRecord.full _ newCells) =>
        let cfg := { s.config with cells := newCells }
        let s1 := applyValidate { s with config := cfg } cfg
        { s1 with undoIndex := newIndex }
    | some (UndoRecord.diff rc _ newVal) =>
        let cells1 := modifyCell s.config.cells rc.1 rc.2 fun cell => { cell with val := newVal }
        let cfg := { s.config with cells := cells1 }
        let s1 := applyValidate { s with config := cfg } cfg
        { s1 with undoIndex := newIndex }
    | none => s
  else s

/-!  ## Cell edits -/

/-- The single character of `newVal[newVal.length - 1]`; JS would yield
`undefined` on an empty string, unreachable at the call site (`val.length >
1`). -/
def lastCharStr (s : String) : String :=
  match s.toList.getLast? with
  | some ch => ch.toString
  | none => ""

/-- `diff(oldVal, newVal)` — "calculate which letter to show for the value":
the first letter of `newVal` not contained in `oldVal` when `newVal` is at
least as long, else the last letter of `newVal`. -/
def diff (oldVal newVal : String) : String :=
  if newVal.length ≥ oldVal.length then
    match newVal.toList.find? (fun l => !(oldVal.toList.contains l)) with
    | some l => l.toString
    | none => lastCharStr newVal
  else lastCharStr newVal

/-- Stable ascending insertion, for `val.split('').sort().join('')` (JS sorts
by code unit; `Char` order agrees on the values that occur). -/
def insertAsc (ch : Char) : List Char → List Char
  | [] => [ch]
  | a :: l => if ch ≤ a then ch :: a :: l else a :: insertAsc ch l

/-- `val.split('').sort().join('')`. -/
def sortChars (s : String) : String :=
  (s.toList.foldr insertAsc []).asString

/-- The guess index a cell edit stores: `-1` for an empty edit, else the
current guess. -/
def editGuess (val : String) (currGuess : Nat) : Int :=
  if val = "" then -1 else (currGuess : Int)

/-- The value a cell edit stores: single-character `diff` for multi-character
non-small input, sorted characters for small input, the raw text otherwise. -/
def editVal (prevVal val : String) (currGuess : Nat) (guesses : List GuessStyle) : String :=
  let guess := editGuess val currGuess
  let isSmall := guess != -1 && (((guesses.get? currGuess).map GuessStyle.isSmall).getD false)
  if val.length > 1 && !isSmall then diff prevVal val
  else if isSmall then sortChars val
  else val

/-- The grid after the two cell writes of `cellValCallback`:
`newConfig.cells[r][c].val = ...; newConfig.cells[r][c].guess = guess`.
It depends only on the config's cells/guesses and the current guess (not on
the timer flag). -/
def editedCells (r c : Nat) (val : String) (s : AppState) : Cells :=
  let prevVal := (cellAt s.config.cells r c).val
  modifyCell s.config.cells r c fun cell =>
    { cell with
      val := editVal prevVal val s.currGuess s.config.guesses,
      guess := editGuess val s.currGuess }

/-- `cellValCallback(r, c, val)`: maybe start the timer, write the computed
value and guess to the cell, record the diff (the new value re-read from the
grid, `newConfig.cells[r][c].val`), and validate. -/
def cellValCallback (r c : Nat) (val : String) (s : AppState) : AppState :=
  let s0 := if !s.timerStarted && s.currGuess == 1 && !(s.config.type == "other")
            then { s with timerStarted := true } else s
  let cells1 := editedCells r c val s0
  let cfg := { s0.config with cells := cells1 }
  let s1 := addUndoDiff (r, c) ((cellAt s0.config.cells r c).val) ((cellAt cells1 r c).val)
    { s0 with config := cfg }
  applyValidate s1 cfg

/-- The grid after `clearGuess(i)` blanks every cell carrying guess `i`
(value `''`, guess -1). -/
def clearedCells (i : Nat) (g : Cells) : Cells :=
  g.map (·.map fun cell =>
    if cell.guess == (i : Int) then { cell with val := "", guess := -1 } else cell)

/-- `clearGuess(i)`: blank every cell carrying guess `i`, record a full
snapshot pair, and validate. -/
def clearGuess (i : Nat) (s : AppState) : AppState :=
  let prevCells := s.config.cells
  let newCells := clearedCells i s.config.cells
  let cfg := { s.config with cells := newCells }
  let s1 := addUndoFull prevCells newCells { s with config := cfg }
  applyValidate s1 cfg

/-- Pressing the Validate button: `validate()` with no argument runs on the
current config. -/
def validateApp (s : AppState) : AppState :=
  applyValidate s s.config

/-- Modelled from the spec of the implicit claim about `diff`: the stored
character is "the first character of the input absent from the cell's
previous value when the input is at least as long as the previous value and
such a character exists, and otherwise the last character of the input". -/
def storedCharSpec (prev input : String) : String :=
  if input.length ≥ prev.length then
    match input.toList.find? (fun ch => !(prev.toList.contains ch)) with
    | some ch => ch.toString
    | none => lastCharStr input
  else lastCharStr input

/-- `deleteGroup(i)`: `groups.splice(i, 1)`, then every cell with
`group >= i` gets `group = Math.max(0, group - 1)`. -/
def deleteGroup (i : Nat) (c : Config) : Config :=
  { c with
    groups := c.groups.eraseIdx i,
    cells := c.cells.map (·.map fun cell =>
      if cell.group ≥ i then { cell with group := max 0 (cell.group - 1) } else cell) }

/-!  ## Schema migration: `upgrade`

Documents older than the current schema carry optional fields, modelled by a
separate raw document type.  A pre-1.1 file has no `guesses` list at all;
the JS steps below 1.2/1.4/1.5 would crash on such a file unless step 1.1 ran
first, so the absent list is modelled as `[]`.  The DOM-based colour
normalisation of step 1.2 (`getComputedStyle` on a scratch element) is an
external effect and enters as the function parameter `resolveColor`. -/

/-- A raw cell: pre-1.1 files carry the boolean `isGuess` and no `guess`. -/
structure RawCell where
  val : String
  isGuess : Option Bool := none
  guess : Option Int := none
  group : Nat := 0
deriving DecidableEq, Repr

/-- A raw guess style: pre-1.4 files may lack `editable`. -/
structure RawGuessStyle where
  color : String
  isSmall : Bool := false
  editable : Option Bool := none
deriving DecidableEq, Repr

/-- A raw document as loaded from a file. -/
structure RawConfig where
  version : Option ℚ := none
  dimensions : Nat × Nat := (9, 9)
  cells : List (List RawCell) := []
  groups : List Group := []
  guesses : List RawGuessStyle := []
  type : Option String := none
  elapsed : Option Nat := none
deriving DecidableEq, Repr

/-- `list.splice(n, 0, x)`: insert at `n`, clamped to the end of the list
(unlike `List.insertIdx`, which drops the insertion when `n` is past the
end). -/
def spliceInsert : Nat → α → List α → List α
  | 0, x, l => x :: l
  | _ + 1, x, [] => [x]
  | n + 1, x, a :: l => a :: spliceInsert n x l

def CURR_VER : ℚ := 1.5

/-- `upgrade(config)`: the migration chain.  `config.version || 1.0` treats a
falsy version (absent, or 0) as 1.0; each step fires iff the declared version
is below its threshold; finally the version is stamped to `CURR_VER`. -/
def upgrade (resolveColor : String → String) (config : RawConfig) : RawConfig :=
  let version : ℚ := match config.version with
    | some v => if v = 0 then 1 else v
    | none => 1
  let config :=
    if version < 1.1 then
      { config with
        cells := config.cells.map (·.map fun cell =>
          { cell with
            guess := some (if cell.isGuess.getD false then 1 else 0),
            isGuess := none }),
        guesses := [{ color := "#ffffff", isSmall := false, editable := some false },
                    { color := "#ff0000", isSmall := false, editable := some true }] }
    else config
  let config :=
    if version < 1.2 then
      { config with
        groups := config.groups.map fun g => { g with color := resolveColor g.color },
        guesses := config.guesses.map fun g => { g with color := resolveColor g.color } }
    else config
  let config :=
    if version < 1.3 then
      match config.type with
      | some t => if t = "" then { config with type := some "default" } else config
      | none => { config with type := some "default" }
    else config
  let config :=
    if version < 1.4 then
      { config with guesses := config.guesses.map fun g =>
          match g.editable with
          | none => { g with editable := some true }
          | some _ => g }
    else config
  let config :=
    if version < 1.5 then
      { config with
        guesses := spliceInsert 2
          { color := "#ff0000", isSmall := true, editable := some true } config.guesses,
        cells := config.cells.map (·.map fun cell =>
          match cell.guess with
          | some gv => if gv ≥ 2 then { cell with guess := some (gv + 1) } else cell
          | none => cell),
        elapsed := some 0 }
    else config
  { config with version := some CURR_VER }

/-!  ## Concrete sample documents and states (used by witnesses and
counterexamples) -/

/-- The three default guess styles of a fresh 1.5 document. -/
def defaultGuesses : List GuessStyle :=
  [{ color := "#ffffff", isSmall := false, editable := false },
   { color := "#ff0000", isSmall := false, editable := true },
   { color := "#ff0000", isSmall := true, editable := true }]

/-- A one-cell document of type `other` (validation disabled). -/
def otherConfig : Config :=
  { version := 1, dimensions := (1, 1),
    cells := [[{ val := "1", guess := 0, group := 0 }]],
    groups := [{ color := "#000000" }],
    guesses := defaultGuesses, type := "other", elapsed := 0 }

/-- App state on `otherConfig` with the normal-guess style active. -/
def otherState : AppState := { config := otherConfig, currGuess := 1 }

/-- App state of type `other` whose single cell already carries an error
flag. -/
def flaggedOtherState : AppState :=
  { config := { otherConfig with
      cells := [[{ val := "", guess := -1, group := 0, error := true }]] } }

/-- A document with a single group, referenced by its single cell. -/
def oneGroupConfig : Config :=
  { version := 1, dimensions := (1, 1),
    cells := [[{ val := "", guess := -1, group := 0 }]],
    groups := [{ color := "#000000" }],
    guesses := defaultGuesses, type := "other", elapsed := 0 }

/-- A document with five groups whose cells reference groups 4 and 1. -/
def fiveGroupConfig : Config :=
  { version := 1, dimensions := (1, 2),
    cells := [[{ val := "", guess := -1, group := 4 },
               { val := "", guess := -1, group := 1 }]],
    groups := [{ color := "#000000" }, { color := "#111111" }, { color := "#222222" },
               { color := "#333333" }, { color := "#444444" }],
    guesses := defaultGuesses, type := "other", elapsed := 0 }

/-- A version-1.0 raw document with legacy boolean guess flags. -/
def rawTenDoc : RawConfig :=
  { version := some 1, dimensions := (1, 2),
    cells := [[{ val := "1", isGuess := some true }, { val := "2", isGuess := some false }]],
    groups := [{ color := "#000000" }],
    guesses := [], type := none, elapsed := none }

/-- A raw document already at the current schema version. -/
def rawCurrentDoc : RawConfig :=
  { version := some CURR_VER, dimensions := (1, 1),
    cells := [[{ val := "3", guess := some 1 }]],
    groups := [{ color := "#000000" }],
    guesses := [{ color := "#ffffff", isSmall := false, editable := some false },
                { color := "#ff0000", isSmall := false, editable := some true },
                { color := "#ff0000", isSmall := true, editable := some true }],
    type := some "default", elapsed := some 7 }

/-!  ## Helper lemmas: single-position updates and error stripping -/

lemma modifyAt_congr {α : Type} (f f2 : α → α) (n : Nat) (l : List α) (d : α)
    (h : f (l.getD n d) = f2 (l.getD n d)) : modifyAt f n l = modifyAt f2 n l := by
  induction l generalizing n with
  | nil => cases n <;> rfl
  | cons a t ih =>
      cases n with
      | zero => simp only [List.getD_cons_zero] at h; simp [modifyAt, h]
      | succ n => simp only [List.getD_cons_succ] at h; simp [modifyAt, ih n h]

lemma modifyAt_modifyAt {α : Type} (f f2 : α → α) (n : Nat) (l : List α) :
    modifyAt f n (modifyAt f2 n l) = modifyAt (fun a => f (f2 a)) n l := by
  induction l generalizing n with
  | nil => cases n <;> rfl
  | cons a t ih =>
      cases n with
      | zero => simp [modifyAt]
      | succ n => simp [modifyAt, ih n]

lemma modifyAt_id {α : Type} (n : Nat) (l : List α) : modifyAt (fun a => a) n l = l := by
  induction l generalizing n with
  | nil => cases n <;> rfl
  | cons a t ih =>
      cases n with
      | zero => simp [modifyAt]
      | succ n => simp [modifyAt, ih n]

lemma map_modifyAt {α β : Type} (m : α → β) (f : α → α) (f2 : β → β) (n : Nat) (l : List α)
    (hc : ∀ a, m (f a) = f2 (m a)) :
    (modifyAt f n l).map m = modifyAt f2 n (l.map m) := by
  induction l generalizing n with
  | nil => cases n <;> rfl
  | cons a t ih =>
      cases n with
      | zero => simp [modifyAt, hc]
      | succ n => simp [modifyAt, ih n]

lemma map_modifyAt_erase {α β : Type} (m : α → β) (f : α → α) (n : Nat) (l : List α)
    (hc : ∀ a, m (f a) = m a) :
    (modifyAt f n l).map m = l.map m := by
  induction l generalizing n with
  | nil => cases n <;> rfl
  | cons a t ih =>
      cases n with
      | zero => simp [modifyAt, hc]
      | succ n => simp [modifyAt, ih n]

lemma getD_map {α β : Type} (m : α → β) (l : List α) (n : Nat) (d : α) (d2 : β)
    (hd : m d = d2) : (l.map m).getD n d2 = m (l.getD n d) := by
  induction l generalizing n with
  | nil => simpa using hd.symm
  | cons a t ih =>
      cases n with
      | zero => simp
      | succ n => simpa using ih n

lemma modifyCell_congr (g : Cells) (r c : Nat) (f f2 : Cell → Cell)
    (h : f (cellAt g r c) = f2 (cellAt g r c)) : modifyCell g r c f = modifyCell g r c f2 := by
  unfold modifyCell
  exact modifyAt_congr _ _ r g [] (modifyAt_congr f f2 c _ defaultCell h)

lemma modifyCell_modifyCell (g : Cells) (r c : Nat) (f f2 : Cell → Cell) :
    modifyCell (modifyCell g r c f) r c f2 = modifyCell g r c (fun cell => f2 (f cell)) := by
  unfold modifyCell
  rw [modifyAt_modifyAt]
  congr 1
  funext row
  rw [modifyAt_modifyAt]

lemma modifyCell_id (g : Cells) (r c : Nat) (f : Cell → Cell)
    (h : f (cellAt g r c) = cellAt g r c) : modifyCell g r c f = g := by
  rw [modifyCell_congr g r c f (fun a => a) h]
  unfold modifyCell
  have : modifyAt (fun a : Cell => a) c = fun row => row := by
    funext row; exact modifyAt_id c row
  rw [this]
  exact modifyAt_id r g

lemma stripErrors_idem (g : Cells) : stripErrors (stripErrors g) = stripErrors g := by
  simp [stripErrors, List.map_map, Function.comp_def, stripCell]

lemma cellAt_stripErrors (g : Cells) (r c : Nat) :
    cellAt (stripErrors g) r c = stripCell (cellAt g r c) := by
  unfold cellAt stripErrors
  rw [getD_map (·.map stripCell) g r [] [] rfl, getD_map stripCell _ c defaultCell defaultCell rfl]

lemma stripErrors_modifyCell (g : Cells) (r c : Nat) (f : Cell → Cell)
    (hc : ∀ cell, stripCell (f cell) = f (stripCell cell)) :
    stripErrors (modifyCell g r c f) = modifyCell (stripErrors g) r c f := by
  unfold stripErrors modifyCell
  exact map_modifyAt _ _ _ r g fun row => map_modifyAt stripCell f f c row hc

lemma stripErrors_modifyCell_mark (g : Cells) (r c : Nat) :
    stripErrors (modifyCell g r c (fun cell => { cell with error := true })) = stripErrors g := by
  unfold stripErrors modifyCell
  exact map_modifyAt_erase _ _ r g fun row =>
    map_modifyAt_erase stripCell _ c row fun _ => rfl

lemma stripErrors_markCoords (g : Cells) (coords : List (Nat × Nat)) :
    stripErrors (markCoords g coords) = stripErrors g := by
  induction coords generalizing g with
  | nil => rfl
  | cons rc rest ih =>
      show stripErrors (markCoords (modifyCell g rc.1 rc.2 _) rest) = stripErrors g
      rw [ih, stripErrors_modifyCell_mark]

lemma stripErrors_allUniqueCoords (gs : List GuessStyle) (g : Cells)
    (coords : List (Nat × Nat)) :
    stripErrors (allUniqueCoords gs g coords).2 = stripErrors g := by
  show stripErrors (if allUniqueTest gs (coords.map fun rc => cellAt g rc.1 rc.2) = true
      then g else markCoords g coords) = stripErrors g
  split
  · rfl
  · exact stripErrors_markCoords g coords

lemma foldl_stripErrors_inv {σ α : Type} (proj : σ → Cells) (step : σ → α → σ)
    (h : ∀ acc a, stripErrors (proj (step acc a)) = stripErrors (proj acc)) :
    ∀ (l : List α) (acc : σ), stripErrors (proj (l.foldl step acc)) = stripErrors (proj acc) := by
  intro l
  induction l with
  | nil => intro acc; rfl
  | cons a t ih => intro acc; rw [List.foldl_cons, ih, h]

lemma stripErrors_rowStep (gs : List GuessStyle) (fc sl : Nat)
    (acc : Cells × Bool × Bool) (r : Nat) :
    stripErrors (rowStep gs fc sl acc r).1 = stripErrors acc.1 :=
  stripErrors_allUniqueCoords gs acc.1 _

lemma stripErrors_uniquePairStep (gs : List GuessStyle) (acc : Cells × Bool)
    (coords : List (Nat × Nat)) :
    stripErrors (uniquePairStep gs acc coords).1 = stripErrors acc.1 :=
  stripErrors_allUniqueCoords gs acc.1 _

lemma stripErrors_defaultValidate (groupsCfg : List Group) (gs : List GuessStyle)
    (fr fc sl : Nat) (bd : Option (Nat × Nat)) (g : Cells) :
    stripErrors (defaultValidate groupsCfg gs fr fc sl bd g).1 = stripErrors g := by
  have hrow := foldl_stripErrors_inv Prod.fst (rowStep gs fc sl) (stripErrors_rowStep gs fc sl)
  have hpair := foldl_stripErrors_inv Prod.fst (uniquePairStep gs) (stripErrors_uniquePairStep gs)
  exact ((hpair _ _).trans ((hpair _ _).trans (hrow _ _)))

lemma stripErrors_samuraiStep (groupsCfg : List Group) (gs : List GuessStyle)
    (acc : Cells × Bool × Bool) (fs : Nat × Nat) :
    stripErrors (samuraiStep groupsCfg gs acc fs).1 = stripErrors acc.1 :=
  stripErrors_defaultValidate groupsCfg gs fs.1 fs.2 9 (some (3, 3)) acc.1

section

/-!  The unifier must not reduce inside the sealed validation internals while
the next lemmas are elaborated (deciding `allUniqueTest` on a symbolic grid
diverges); the attribute is local to this section. -/
attribute [local irreducible] allUniqueTest allUniqueCoords defaultValidate

lemma stripErrors_xDiagonals (gs : List GuessStyle) (o1 : Cells × Bool × Bool) :
    stripErrors (xDiagonals gs o1).1 = stripErrors o1.1 :=
  (stripErrors_allUniqueCoords gs _ _).trans (stripErrors_allUniqueCoords gs _ _)

lemma stripErrors_samuraiExtension (groupsCfg : List Group) (gs : List GuessStyle)
    (o : Cells × Bool × Bool) :
    stripErrors (samuraiExtension groupsCfg gs o).1 = stripErrors o.1 :=
  foldl_stripErrors_inv Prod.fst (samuraiStep groupsCfg gs)
    (stripErrors_samuraiStep groupsCfg gs) samuraiRegions o

lemma stripErrors_validateCellsOps (groupsCfg : List Group) (gs : List GuessStyle)
    (sl : Nat) (bd : Option (Nat × Nat)) (isX isSam : Bool) (g : Cells) :
    stripErrors (validateCellsOps groupsCfg gs sl bd isX isSam g).1 = stripErrors g := by
  have hsam := stripErrors_samuraiExtension groupsCfg gs
  have hxd := stripErrors_xDiagonals gs
  have hdv := stripErrors_defaultValidate groupsCfg gs
  cases isX <;> cases isSam
  · exact hdv _ _ _ _ _
  · exact ((hsam _).trans (hdv _ _ _ _ _))
  · exact ((hxd _).trans (hdv _ _ _ _ _))
  · exact ((hsam _).trans ((hxd _).trans (hdv _ _ _ _ _)))

lemma stripErrors_validateCells (t : String) (groupsCfg : List Group) (gs : List GuessStyle)
    (g : Cells) :
    stripErrors (validateCells t groupsCfg gs g).1 = stripErrors g :=
  stripErrors_validateCellsOps groupsCfg gs _ _ _ _ g

end

/-!  ## Config-level lemmas about `validate` -/

section

attribute [local irreducible] allUniqueTest allUniqueCoords defaultValidate xDiagonals
  samuraiExtension validateCellsOps validateCells

lemma validatedConfig_of_other (c : Config) (h : c.type = "other") : validatedConfig c = c := by
  unfold validatedConfig validateConfig
  rw [if_pos h]

lemma validateConfig_of_other (c : Config) (h : c.type = "other") : validateConfig c = none := by
  unfold validateConfig
  rw [if_pos h]

lemma validatedConfig_of_not_other (c : Config) (h : ¬ c.type = "other") :
    validatedConfig c
      = { c with cells := (validateCells c.type c.groups c.guesses (stripErrors c.cells)).1 } := by
  unfold validatedConfig validateConfig
  rw [if_neg h]

lemma validatedConfig_fields (c : Config) :
    validatedConfig c = { c with cells := (validatedConfig c).cells } := by
  by_cases h : c.type = "other"
  · rw [validatedConfig_of_other c h]
  · rw [validatedConfig_of_not_other c h]

lemma stripErrors_validatedConfig (c : Config) :
    stripErrors (validatedConfig c).cells = stripErrors c.cells := by
  by_cases h : c.type = "other"
  · rw [validatedConfig_of_other c h]
  · rw [validatedConfig_of_not_other c h]
    exact (stripErrors_validateCells _ _ _ _).trans (stripErrors_idem _)

lemma validatedConfig_congr (c : Config) (g1 g2 : Cells)
    (h : stripErrors g1 = stripErrors g2) (hty : ¬ c.type = "other") :
    validatedConfig { c with cells := g1 } = validatedConfig { c with cells := g2 } := by
  rw [validatedConfig_of_not_other { c with cells := g1 } hty,
      validatedConfig_of_not_other { c with cells := g2 } hty]
  show ({ c with cells := (validateCells c.type c.groups c.guesses (stripErrors g1)).1 } : Config)
     = { c with cells := (validateCells c.type c.groups c.guesses (stripErrors g2)).1 }
  rw [h]

lemma validatedConfig_idem (c : Config) :
    validatedConfig (validatedConfig c) = validatedConfig c := by
  by_cases h : c.type = "other"
  · rw [validatedConfig_of_other c h, validatedConfig_of_other c h]
  · rw [validatedConfig_of_not_other c h]
    rw [validatedConfig_of_not_other
      { c with cells := (validateCells c.type c.groups c.guesses (stripErrors c.cells)).1 } h]
    have hstrip : stripErrors (validateCells c.type c.groups c.guesses (stripErrors c.cells)).1
        = stripErrors c.cells :=
      (stripErrors_validateCells _ _ _ _).trans (stripErrors_idem _)
    show ({ c with cells := (validateCells c.type c.groups c.guesses
        (stripErrors (validateCells c.type c.groups c.guesses (stripErrors c.cells)).1)).1 } : Config)
      = { c with cells := (validateCells c.type c.groups c.guesses (stripErrors c.cells)).1 }
    rw [hstrip]

lemma applyValidate_config (s : AppState) (c : Config) :
    (applyValidate s c).config = validatedConfig c := by
  unfold applyValidate validatedConfig
  cases validateConfig c <;> rfl

lemma applyValidate_undoHistory (s : AppState) (c : Config) :
    (applyValidate s c).undoHistory = s.undoHistory := by
  unfold applyValidate
  cases validateConfig c <;> rfl

lemma applyValidate_undoIndex (s : AppState) (c : Config) :
    (applyValidate s c).undoIndex = s.undoIndex := by
  unfold applyValidate
  cases validateConfig c <;> rfl

end

/-!  ## Cell-write helper lemmas -/

lemma modifyCell_val_val (g : Cells) (r c : Nat) (a b : String) :
    modifyCell (modifyCell g r c (fun cell => { cell with val := a })) r c
      (fun cell => { cell with val := b })
    = modifyCell g r c (fun cell => { cell with val := b }) := by
  rw [modifyCell_modifyCell]

lemma modifyCell_val_self (g : Cells) (r c : Nat) :
    modifyCell g r c (fun cell => { cell with val := (cellAt g r c).val }) = g :=
  modifyCell_id g r c _ rfl

lemma stripErrors_modifyCell_val (g : Cells) (r c : Nat) (a : String) :
    stripErrors (modifyCell g r c (fun cell => { cell with val := a }))
    = modifyCell (stripErrors g) r c (fun cell => { cell with val := a }) :=
  stripErrors_modifyCell g r c _ fun _ => rfl

lemma cellAt_val_of_stripEq (g1 g2 : Cells) (h : stripErrors g1 = stripErrors g2) (r c : Nat) :
    (cellAt g1 r c).val = (cellAt g2 r c).val := by
  have h2 := congrArg (fun g => (cellAt g r c).val) h
  simpa only [cellAt_stripErrors, stripCell] using h2

lemma cellAt_guess_of_stripEq (g1 g2 : Cells) (h : stripErrors g1 = stripErrors g2) (r c : Nat) :
    (cellAt g1 r c).guess = (cellAt g2 r c).guess := by
  have h2 := congrArg (fun g => (cellAt g r c).guess) h
  simpa only [cellAt_stripErrors, stripCell] using h2

/-!  ## Shape lemmas for the edit and undo/redo handlers -/

section

attribute [local irreducible] allUniqueTest allUniqueCoords defaultValidate xDiagonals
  samuraiExtension validateCellsOps validateCells validateConfig validatedConfig

lemma cellValCallback_shape (r c : Nat) (v : String) (s : AppState) :
    (cellValCallback r c v s).config
      = validatedConfig { s.config with cells := editedCells r c v s }
    ∧ (cellValCallback r c v s).undoHistory
      = s.undoHistory.take (s.undoIndex + 1).toNat
        ++ [UndoRecord.diff (r, c) (cellAt s.config.cells r c).val
             ((cellAt (editedCells r c v s) r c).val)]
    ∧ (cellValCallback r c v s).undoIndex = s.undoIndex + 1 := by
  unfold cellValCallback
  split
  · exact ⟨applyValidate_config _ _, (applyValidate_undoHistory _ _).trans rfl,
      (applyValidate_undoIndex _ _).trans rfl⟩
  · exact ⟨applyValidate_config _ _, (applyValidate_undoHistory _ _).trans rfl,
      (applyValidate_undoIndex _ _).trans rfl⟩

lemma clearGuess_shape (i : Nat) (s : AppState) :
    (clearGuess i s).config
      = validatedConfig { s.config with cells := clearedCells i s.config.cells }
    ∧ (clearGuess i s).undoHistory
      = s.undoHistory.take (s.undoIndex + 1).toNat
        ++ [UndoRecord.full s.config.cells (clearedCells i s.config.cells)]
    ∧ (clearGuess i s).undoIndex = s.undoIndex + 1 := by
  unfold clearGuess
  exact ⟨applyValidate_config _ _, (applyValidate_undoHistory _ _).trans rfl,
    (applyValidate_undoIndex _ _).trans rfl⟩

lemma undo_shape_diff (s : AppState) (rc : Nat × Nat) (pv nv : String)
    (h0 : s.undoIndex > -1)
    (hget : s.undoHistory.get? s.undoIndex.toNat = some (UndoRecord.diff rc pv nv)) :
    (undo s).config = validatedConfig { s.config with
        cells := modifyCell s.config.cells rc.1 rc.2 (fun cell => { cell with val := pv }) }
    ∧ (undo s).undoHistory = s.undoHistory
    ∧ (undo s).undoIndex = s.undoIndex - 1 := by
  unfold undo
  rw [if_pos h0, hget]
  exact ⟨applyValidate_config _ _, (applyValidate_undoHistory _ _).trans rfl,
    rfl⟩

lemma undo_shape_full (s : AppState) (pc nc : Cells)
    (h0 : s.undoIndex > -1)
    (hget : s.undoHistory.get? s.undoIndex.toNat = some (UndoRecord.full pc nc)) :
    (undo s).config = validatedConfig { s.config with cells := pc }
    ∧ (undo s).undoHistory = s.undoHistory
    ∧ (undo s).undoIndex = s.undoIndex - 1 := by
  unfold undo
  rw [if_pos h0, hget]
  exact ⟨applyValidate_config _ _, (applyValidate_undoHistory _ _).trans rfl,
    rfl⟩

lemma redo_shape_diff (s : AppState) (rc : Nat × Nat) (pv nv : String)
    (hguard : s.undoIndex < (s.undoHistory.length : Int) - 1)
    (hget : s.undoHistory.get? (s.undoIndex + 1).toNat = some (UndoRecord.diff rc pv nv)) :
    (redo s).config = validatedConfig { s.config with
        cells := modifyCell s.config.cells rc.1 rc.2 (fun cell => { cell with val := nv }) }
    ∧ (redo s).undoHistory = s.undoHistory
    ∧ (redo s).undoIndex = s.undoIndex + 1 := by
  unfold redo
  rw [if_pos hguard]
  simp only []
  rw [hget]
  exact ⟨applyValidate_config _ _, (applyValidate_undoHistory _ _).trans rfl,
    rfl⟩

lemma redo_shape_full (s : AppState) (pc nc : Cells)
    (hguard : s.undoIndex < (s.undoHistory.length : Int) - 1)
    (hget : s.undoHistory.get? (s.undoIndex + 1).toNat = some (UndoRecord.full pc nc)) :
    (redo s).config = validatedConfig { s.config with cells := nc }
    ∧ (redo s).undoHistory = s.undoHistory
    ∧ (redo s).undoIndex = s.undoIndex + 1 := by
  unfold redo
  rw [if_pos hguard]
  simp only []
  rw [hget]
  exact ⟨applyValidate_config _ _, (applyValidate_undoHistory _ _).trans rfl,
    rfl⟩

end

/-!  ## Master round-trip lemmas -/

section

attribute [local irreducible] allUniqueTest allUniqueCoords defaultValidate xDiagonals
  samuraiExtension validateCellsOps validateCells

lemma config_update_update (c : Config) (g1 g2 : Cells) :
    ({ { c with cells := g1 } with cells := g2 } : Config) = { c with cells := g2 } := rfl

lemma config_update_self (c : Config) : ({ c with cells := c.cells } : Config) = c := rfl

lemma validatedConfig_type (c : Config) : (validatedConfig c).type = c.type := by
  rw [validatedConfig_fields c]

lemma undo_redo_diff (t : AppState) (r c : Nat) (pv : String)
    (h0 : t.undoIndex > -1) (hlen : t.undoIndex < (t.undoHistory.length : Int))
    (hget : t.undoHistory.get? t.undoIndex.toNat
      = some (UndoRecord.diff (r, c) pv ((cellAt t.config.cells r c).val)))
    (hfix : validatedConfig t.config = t.config) :
    (redo (undo t)).config = t.config := by
  obtain ⟨hucfg, huh, hui⟩ := undo_shape_diff t (r, c) pv _ h0 hget
  have hguard : (undo t).undoIndex < ((undo t).undoHistory.length : Int) - 1 := by
    rw [hui, huh]; omega
  have hget2 : (undo t).undoHistory.get? ((undo t).undoIndex + 1).toNat
      = some (UndoRecord.diff (r, c) pv ((cellAt t.config.cells r c).val)) := by
    rw [huh, hui, show t.undoIndex - 1 + 1 = t.undoIndex from by omega]
    exact hget
  obtain ⟨hrcfg, hrh, hri⟩ := redo_shape_diff (undo t) (r, c) pv _ hguard hget2
  rw [hrcfg]
  by_cases hty : t.config.type = "other"
  · have e1 : (undo t).config = { t.config with
        cells := modifyCell t.config.cells r c (fun cell => { cell with val := pv }) } := by
      rw [hucfg]
      exact validatedConfig_of_other _ hty
    rw [e1]
    show validatedConfig { t.config with
        cells := modifyCell (modifyCell t.config.cells r c (fun cell => { cell with val := pv }))
          r c (fun cell => { cell with val := (cellAt t.config.cells r c).val }) } = t.config
    rw [modifyCell_val_val, modifyCell_val_self, config_update_self]
    exact hfix
  · have e2 : (undo t).config = { t.config with cells := ((undo t).config).cells } := by
      rw [hucfg]
      exact validatedConfig_fields _
    have hstrip : stripErrors (modifyCell ((undo t).config).cells r c
        (fun cell => { cell with val := (cellAt t.config.cells r c).val }))
        = stripErrors t.config.cells := by
      have h1 : stripErrors ((undo t).config).cells
          = stripErrors (modifyCell t.config.cells r c (fun cell => { cell with val := pv })) := by
        rw [hucfg]
        exact stripErrors_validatedConfig _
      rw [stripErrors_modifyCell_val, h1, stripErrors_modifyCell_val, modifyCell_val_val,
        ← stripErrors_modifyCell_val, modifyCell_val_self]
    rw [e2]
    show validatedConfig { t.config with
        cells := modifyCell ((undo t).config).cells r c
          (fun cell => { cell with val := (cellAt t.config.cells r c).val }) } = t.config
    have hcongr := validatedConfig_congr t.config _ t.config.cells hstrip hty
    rw [config_update_self] at hcongr
    exact hcongr.trans hfix

lemma undo_redo_full (t : AppState) (pc nc : Cells)
    (h0 : t.undoIndex > -1) (hlen : t.undoIndex < (t.undoHistory.length : Int))
    (hget : t.undoHistory.get? t.undoIndex.toNat = some (UndoRecord.full pc nc))
    (hstrip : stripErrors nc = stripErrors t.config.cells)
    (hexact : t.config.type = "other" → nc = t.config.cells)
    (hfix : validatedConfig t.config = t.config) :
    (redo (undo t)).config = t.config := by
  obtain ⟨hucfg, huh, hui⟩ := undo_shape_full t pc nc h0 hget
  have hguard : (undo t).undoIndex < ((undo t).undoHistory.length : Int) - 1 := by
    rw [hui, huh]; omega
  have hget2 : (undo t).undoHistory.get? ((undo t).undoIndex + 1).toNat
      = some (UndoRecord.full pc nc) := by
    rw [huh, hui, show t.undoIndex - 1 + 1 = t.undoIndex from by omega]
    exact hget
  obtain ⟨hrcfg, hrh, hri⟩ := redo_shape_full (undo t) pc nc hguard hget2
  rw [hrcfg]
  have e2 : (undo t).config = { t.config with cells := ((undo t).config).cells } := by
    rw [hucfg]
    exact validatedConfig_fields _
  rw [e2]
  show validatedConfig { t.config with cells := nc } = t.config
  by_cases hty : t.config.type = "other"
  · rw [hexact hty, config_update_self]
    exact hfix
  · have hcongr := validatedConfig_congr t.config nc t.config.cells hstrip hty
    rw [config_update_self] at hcongr
    exact hcongr.trans hfix

end

/-!  ## Claim C2 -/

section

attribute [local irreducible] allUniqueTest allUniqueCoords defaultValidate xDiagonals
  samuraiExtension validateCellsOps validateCells

/-- C2: for every recorded edit — the single-cell diff recorded by
`cellValCallback` and the full-snapshot pair recorded by `clearGuess` —
calling `undo()` and then immediately `redo()` reproduces the exact document
(config) state that held just after the edit, bit for bit.  The hypotheses are
the app's cursor invariant (`-1 ≤ undoIndex < length`), maintained by every
operation of the log. -/
theorem undo_then_redo_restores_document (s : AppState) (r c : Nat) (v : String) (i : Nat)
    (h0 : -1 ≤ s.undoIndex) (hlen : s.undoIndex < (s.undoHistory.length : Int)) :
    (redo (undo (cellValCallback r c v s))).config = (cellValCallback r c v s).config
    ∧ (redo (undo (clearGuess i s))).config = (clearGuess i s).config := by
  constructor
  · obtain ⟨hcfg, hh, hidx⟩ := cellValCallback_shape r c v s
    have hvals : (cellAt (editedCells r c v s) r c).val
        = (cellAt (cellValCallback r c v s).config.cells r c).val := by
      rw [hcfg]
      exact (cellAt_val_of_stripEq
        (validatedConfig { s.config with cells := editedCells r c v s }).cells
        (editedCells r c v s)
        (stripErrors_validatedConfig { s.config with cells := editedCells r c v s }) r c).symm
    apply undo_redo_diff (cellValCallback r c v s) r c (cellAt s.config.cells r c).val
    · rw [hidx]; omega
    · rw [hidx, hh]
      simp only [List.length_append, List.length_take, List.length_cons, List.length_nil]
      omega
    · rw [hidx, hh, ← hvals]
      have hlen2 : (s.undoHistory.take (s.undoIndex + 1).toNat).length
          = (s.undoIndex + 1).toNat := by
        rw [List.length_take]; omega
      nth_rewrite 2 [← hlen2]
      rw [List.get?_concat_length]
    · rw [hcfg]
      exact validatedConfig_idem _
  · obtain ⟨hcfg, hh, hidx⟩ := clearGuess_shape i s
    have hstrip : stripErrors (clearedCells i s.config.cells)
        = stripErrors (clearGuess i s).config.cells := by
      rw [hcfg]
      exact (stripErrors_validatedConfig
        { s.config with cells := clearedCells i s.config.cells }).symm
    apply undo_redo_full (clearGuess i s) s.config.cells (clearedCells i s.config.cells)
    · rw [hidx]; omega
    · rw [hidx, hh]
      simp only [List.length_append, List.length_take, List.length_cons, List.length_nil]
      omega
    · rw [hidx, hh]
      have hlen2 : (s.undoHistory.take (s.undoIndex + 1).toNat).length
          = (s.undoIndex + 1).toNat := by
        rw [List.length_take]; omega
      nth_rewrite 2 [← hlen2]
      rw [List.get?_concat_length]
    · exact hstrip
    · intro hty
      rw [hcfg, validatedConfig_type] at hty
      rw [hcfg, validatedConfig_of_other _ hty]
    · rw [hcfg]
      exact validatedConfig_idem _

end

/-- C2 witness: the round trip evaluated on a concrete one-cell state. -/
theorem undo_then_redo_restores_document_witness :
    (redo (undo (cellValCallback 0 0 "2" otherState))).config
      = (cellValCallback 0 0 "2" otherState).config
    ∧ (redo (undo (clearGuess 1 otherState))).config = (clearGuess 1 otherState).config :=
  undo_then_redo_restores_document otherState 0 0 "2" 1 (by decide) (by decide)

/-!  ## Claim C5: what a single `undo` restores -/

lemma config_fields_eq_update (a b : Config) (h : a = { b with cells := a.cells }) (g : Cells) :
    ({ a with cells := g } : Config) = { b with cells := g } := by
  rw [h, config_update_update]

/-- C5 counterexample: a single-cell edit also writes the cell's guess index,
but the diff record only stores the value strings, so `undo` right after the
edit does not restore the prior document exactly (here the cell's guess index
stays 1 instead of returning to 0). -/
theorem undo_exact_restore_counterexample :
    (undo (cellValCallback 0 0 "2" otherState)).config ≠ otherState.config := by
  decide

section

attribute [local irreducible] allUniqueTest allUniqueCoords defaultValidate xDiagonals
  samuraiExtension validateCellsOps validateCells

/-- C5 (amended): `undo` right after a recorded mutation restores every
non-cells field of the document, and the grid itself up to the transient
error flags — exactly for the full-snapshot record of `clearGuess`, but only
partially for the single-cell diff record of `cellValCallback`: there the
prior value string is written back while the cell's guess index keeps its
post-edit value `editGuess v currGuess`, so the prior document is not
restored field-for-field.  The hypotheses are the app's cursor invariant. -/
theorem undo_restores_prior_document_up_to_guess (s : AppState) (r c : Nat) (v : String)
    (i : Nat) (h0 : -1 ≤ s.undoIndex) (hlen : s.undoIndex < (s.undoHistory.length : Int)) :
    ((undo (clearGuess i s)).config
        = { s.config with cells := (undo (clearGuess i s)).config.cells }
      ∧ stripErrors (undo (clearGuess i s)).config.cells = stripErrors s.config.cells)
    ∧ ((undo (cellValCallback r c v s)).config
        = { s.config with cells := (undo (cellValCallback r c v s)).config.cells }
      ∧ stripErrors (undo (cellValCallback r c v s)).config.cells
        = modifyCell (stripErrors s.config.cells) r c
            (fun cell => { cell with guess := editGuess v s.currGuess })) := by
  constructor
  · obtain ⟨hcfg, hh, hidx⟩ := clearGuess_shape i s
    have h0' : (clearGuess i s).undoIndex > -1 := by rw [hidx]; omega
    have hget : (clearGuess i s).undoHistory.get? (clearGuess i s).undoIndex.toNat
        = some (UndoRecord.full s.config.cells (clearedCells i s.config.cells)) := by
      rw [hidx, hh]
      have hlen2 : (s.undoHistory.take (s.undoIndex + 1).toNat).length
          = (s.undoIndex + 1).toNat := by
        rw [List.length_take]; omega
      nth_rewrite 2 [← hlen2]
      rw [List.get?_concat_length]
    obtain ⟨hucfg, huh, hui⟩ :=
      undo_shape_full (clearGuess i s) s.config.cells (clearedCells i s.config.cells) h0' hget
    have hEfields : (clearGuess i s).config
        = { s.config with cells := (clearGuess i s).config.cells } := by
      rw [hcfg]
      exact validatedConfig_fields _
    have hbase : ({ (clearGuess i s).config with cells := s.config.cells } : Config)
        = s.config := by
      rw [config_fields_eq_update _ _ hEfields, config_update_self]
    constructor
    · rw [hucfg, hbase]
      exact validatedConfig_fields _
    · rw [hucfg, hbase]
      exact stripErrors_validatedConfig _
  · obtain ⟨hcfg, hh, hidx⟩ := cellValCallback_shape r c v s
    have h0' : (cellValCallback r c v s).undoIndex > -1 := by rw [hidx]; omega
    have hget : (cellValCallback r c v s).undoHistory.get?
          (cellValCallback r c v s).undoIndex.toNat
        = some (UndoRecord.diff (r, c) (cellAt s.config.cells r c).val
            ((cellAt (editedCells r c v s) r c).val)) := by
      rw [hidx, hh]
      have hlen2 : (s.undoHistory.take (s.undoIndex + 1).toNat).length
          = (s.undoIndex + 1).toNat := by
        rw [List.length_take]; omega
      nth_rewrite 2 [← hlen2]
      rw [List.get?_concat_length]
    obtain ⟨hucfg, huh, hui⟩ := undo_shape_diff (cellValCallback r c v s) (r, c)
      (cellAt s.config.cells r c).val ((cellAt (editedCells r c v s) r c).val) h0' hget
    have hEfields : (cellValCallback r c v s).config
        = { s.config with cells := (cellValCallback r c v s).config.cells } := by
      rw [hcfg]
      exact validatedConfig_fields _
    constructor
    · rw [hucfg, config_fields_eq_update _ _ hEfields]
      exact validatedConfig_fields _
    · have s1 : stripErrors (undo (cellValCallback r c v s)).config.cells
          = stripErrors (modifyCell (cellValCallback r c v s).config.cells r c
              (fun cell => { cell with val := (cellAt s.config.cells r c).val })) := by
        rw [hucfg]
        exact stripErrors_validatedConfig _
      have s2 : stripErrors (modifyCell (cellValCallback r c v s).config.cells r c
              (fun cell => { cell with val := (cellAt s.config.cells r c).val }))
          = modifyCell (stripErrors (cellValCallback r c v s).config.cells) r c
              (fun cell => { cell with val := (cellAt s.config.cells r c).val }) :=
        stripErrors_modifyCell_val _ r c _
      have s3 : stripErrors (cellValCallback r c v s).config.cells
          = stripErrors (editedCells r c v s) := by
        rw [hcfg]
        exact stripErrors_validatedConfig _
      have s4 : stripErrors (editedCells r c v s)
          = modifyCell (stripErrors s.config.cells) r c (fun cell =>
              { cell with
                val := editVal (cellAt s.config.cells r c).val v s.currGuess s.config.guesses,
                guess := editGuess v s.currGuess }) := by
        show stripErrors (modifyCell s.config.cells r c (fun cell =>
            { cell with
              val := editVal (cellAt s.config.cells r c).val v s.currGuess s.config.guesses,
              guess := editGuess v s.currGuess }))
          = modifyCell (stripErrors s.config.cells) r c (fun cell =>
            { cell with
              val := editVal (cellAt s.config.cells r c).val v s.currGuess s.config.guesses,
              guess := editGuess v s.currGuess })
        exact stripErrors_modifyCell _ r c _ fun _ => rfl
      rw [s1, s2, s3, s4, modifyCell_modifyCell]
      exact modifyCell_congr _ r c _ _ (by rw [cellAt_stripErrors]; rfl)

end

/-- C5 witness: the amended restoration law evaluated on a concrete state. -/
theorem undo_restores_prior_document_up_to_guess_witness :
    ((undo (clearGuess 1 otherState)).config
        = { otherState.config with cells := (undo (clearGuess 1 otherState)).config.cells }
      ∧ stripErrors (undo (clearGuess 1 otherState)).config.cells
        = stripErrors otherState.config.cells)
    ∧ ((undo (cellValCallback 0 0 "3" otherState)).config
        = { otherState.config with
            cells := (undo (cellValCallback 0 0 "3" otherState)).config.cells }
      ∧ stripErrors (undo (cellValCallback 0 0 "3" otherState)).config.cells
        = modifyCell (stripErrors otherState.config.cells) 0 0
            (fun cell => { cell with guess := editGuess "3" otherState.currGuess })) :=
  undo_restores_prior_document_up_to_guess otherState 0 0 "3" 1 (by decide) (by decide)

/-!  ## Claim C10: the character a multi-character edit stores -/

lemma getD_modifyAt_self {α : Type} (f : α → α) (n : Nat) (l : List α) (d : α)
    (h : n < l.length) : (modifyAt f n l).getD n d = f (l.getD n d) := by
  induction l generalizing n with
  | nil => exact absurd h (Nat.not_lt_zero n)
  | cons a t ih =>
      cases n with
      | zero => rfl
      | succ m =>
          show (modifyAt f m t).getD m d = f (t.getD m d)
          exact ih m (Nat.lt_of_succ_lt_succ h)

lemma cellAt_modifyCell (g : Cells) (r c : Nat) (f : Cell → Cell)
    (hr : r < g.length) (hc : c < (g.getD r []).length) :
    cellAt (modifyCell g r c f) r c = f (cellAt g r c) := by
  unfold cellAt modifyCell
  rw [getD_modifyAt_self _ r g [] hr, getD_modifyAt_self f c _ defaultCell hc]

lemma length_lastCharStr (s : String) (h : s ≠ "") : (lastCharStr s).length = 1 := by
  obtain ⟨data⟩ := s
  cases data with
  | nil => exact absurd rfl h
  | cons a t =>
      unfold lastCharStr
      cases hg : (String.mk (a :: t)).toList.getLast? with
      | some ch => rfl
      | none =>
          exfalso
          rw [show (String.mk (a :: t)).toList = a :: t from rfl] at hg
          exact absurd hg (by simp)

lemma length_diff (prev v : String) (h : v ≠ "") : (diff prev v).length = 1 := by
  unfold diff
  split
  · cases hf : v.toList.find? (fun l => !(prev.toList.contains l)) with
    | some ch => rfl
    | none => exact length_lastCharStr v h
  · exact length_lastCharStr v h

/-- The code's `diff` agrees with the spec-modelled stored-character rule. -/
lemma diff_eq_storedCharSpec (p i : String) : diff p i = storedCharSpec p i := by
  unfold diff storedCharSpec
  split
  · cases hf : i.toList.find? (fun l => !(p.toList.contains l)) <;> rfl
  · rfl

lemma editVal_of_big_notSmall (prev v : String) (cg : Nat) (gs : List GuessStyle)
    (hlen : v.length > 1)
    (hsmall : (((gs.get? cg).map GuessStyle.isSmall).getD false) = false) :
    editVal prev v cg gs = diff prev v := by
  simp only [editVal]
  rw [hsmall, Bool.and_false, Bool.not_false, Bool.and_true, decide_eq_true hlen]
  rfl

section

attribute [local irreducible] allUniqueTest allUniqueCoords defaultValidate xDiagonals
  samuraiExtension validateCellsOps validateCells

/-- C10: for an in-range single-cell edit whose active guess style is not
small and whose raw input has more than one character, the handler stores
exactly one character, the one given by the spec's rule (first character of
the input absent from the previous value when the input is at least as long
and such a character exists, else the last character of the input); and an
edit to the empty string resets the cell's guess index to -1. -/
theorem edit_stores_single_diff_char (s : AppState) (r c : Nat) (v : String)
    (hr : r < s.config.cells.length)
    (hc : c < (s.config.cells.getD r []).length) :
    (v.length > 1 →
      (((s.config.guesses.get? s.currGuess).map GuessStyle.isSmall).getD false) = false →
      (cellAt (cellValCallback r c v s).config.cells r c).val
          = storedCharSpec (cellAt s.config.cells r c).val v
        ∧ (cellAt (cellValCallback r c v s).config.cells r c).val.length = 1)
    ∧ (v = "" → (cellAt (cellValCallback r c v s).config.cells r c).guess = -1) := by
  obtain ⟨hcfg, hh, hidx⟩ := cellValCallback_shape r c v s
  have hstrip : stripErrors (cellValCallback r c v s).config.cells
      = stripErrors (editedCells r c v s) := by
    rw [hcfg]
    exact stripErrors_validatedConfig _
  have hcell : cellAt (editedCells r c v s) r c
      = (fun cell => { cell with
          val := editVal (cellAt s.config.cells r c).val v s.currGuess s.config.guesses,
          guess := editGuess v s.currGuess }) (cellAt s.config.cells r c) :=
    cellAt_modifyCell s.config.cells r c _ hr hc
  constructor
  · intro hlen hsmall
    have hne : v ≠ "" := by
      intro he
      rw [he] at hlen
      exact absurd hlen (by decide)
    have hval : (cellAt (cellValCallback r c v s).config.cells r c).val
        = (cellAt (editedCells r c v s) r c).val := cellAt_val_of_stripEq _ _ hstrip r c
    rw [hval, hcell]
    show editVal (cellAt s.config.cells r c).val v s.currGuess s.config.guesses
        = storedCharSpec (cellAt s.config.cells r c).val v
      ∧ (editVal (cellAt s.config.cells r c).val v s.currGuess s.config.guesses).length = 1
    rw [editVal_of_big_notSmall _ _ _ _ hlen hsmall]
    exact ⟨diff_eq_storedCharSpec _ _, length_diff _ _ hne⟩
  · intro hv
    have hguess : (cellAt (cellValCallback r c v s).config.cells r c).guess
        = (cellAt (editedCells r c v s) r c).guess := cellAt_guess_of_stripEq _ _ hstrip r c
    rw [hguess, hcell]
    show editGuess v s.currGuess = -1
    simp only [hv]
    rfl

end

/-- C10 witness: the stored-character rule evaluated on a concrete in-range
two-character edit. -/
theorem edit_stores_single_diff_char_witness :
    (("12" : String).length > 1 →
      (((otherState.config.guesses.get? otherState.currGuess).map GuessStyle.isSmall).getD false)
          = false →
      (cellAt (cellValCallback 0 0 "12" otherState).config.cells 0 0).val
          = storedCharSpec (cellAt otherState.config.cells 0 0).val "12"
        ∧ (cellAt (cellValCallback 0 0 "12" otherState).config.cells 0 0).val.length = 1)
    ∧ ("12" = "" → (cellAt (cellValCallback 0 0 "12" otherState).config.cells 0 0).guess = -1) :=
  edit_stores_single_diff_char otherState 0 0 "12" (by decide) (by decide)

/-!  ## Claim C3: `getGroup` tiles the board -/

lemma floor_natCast_div (a b : Nat) : (⌊(a : ℚ) / (b : ℚ)⌋ : ℚ) = ((a / b : Nat) : ℚ) := by
  have h := Rat.floor_intCast_div_natCast (a : ℤ) b
  push_cast at h
  rw [h]
  exact_mod_cast rfl

lemma getGroup_eq_getGroupNat (r c gh gw h w : Nat) (hgw : 0 < gw) (hdw : gw ∣ w) :
    getGroup (r : ℚ) (c : ℚ) (gh : ℚ) (gw : ℚ) ((h : ℚ), (w : ℚ))
      = (getGroupNat r c gh gw w : ℚ) := by
  show (⌊(c : ℚ) / (gw : ℚ)⌋ : ℚ) + ((w : ℚ) / (gw : ℚ)) * (⌊(r : ℚ) / (gh : ℚ)⌋ : ℚ)
    = ((c / gw + (w / gw) * (r / gh) : Nat) : ℚ)
  have hwg : ((w / gw : Nat) : ℚ) = (w : ℚ) / (gw : ℚ) :=
    Nat.cast_div hdw (by exact_mod_cast hgw.ne')
  rw [floor_natCast_div c gw, floor_natCast_div r gh, ← hwg]
  push_cast
  ring

lemma getGroupNat_lt (r c gh gw h w : Nat) (hdh : gh ∣ h) (hdw : gw ∣ w)
    (hr : r < h) (hc : c < w) :
    getGroupNat r c gh gw w < (h / gh) * (w / gw) := by
  unfold getGroupNat
  have hA : c / gw < w / gw := Nat.div_lt_div_of_lt_of_dvd hdw hc
  have hB : r / gh < h / gh := Nat.div_lt_div_of_lt_of_dvd hdh hr
  calc c / gw + (w / gw) * (r / gh)
      < (w / gw) + (w / gw) * (r / gh) := Nat.add_lt_add_right hA _
    _ = (w / gw) * (r / gh + 1) := by ring
    _ ≤ (w / gw) * (h / gh) := Nat.mul_le_mul_left _ hB
    _ = (h / gh) * (w / gw) := Nat.mul_comm _ _

lemma range_filter_div_eq (n d k : Nat) (hd : 0 < d) (hdn : d ∣ n) (hk : k < n / d) :
    ((Finset.range n).filter (fun x => x / d = k)).card = d := by
  have hset : (Finset.range n).filter (fun x => x / d = k) = Finset.Ico (d * k) (d * k + d) := by
    ext x
    rw [Finset.mem_filter, Finset.mem_range, Finset.mem_Ico]
    constructor
    · rintro ⟨hx, hxd⟩
      have h1 := Nat.div_add_mod x d
      have h2 := Nat.mod_lt x hd
      rw [hxd] at h1
      constructor
      · linarith [Nat.zero_le (x % d)]
      · linarith
    · rintro ⟨hlo, hhi⟩
      constructor
      · have h3 : d * (k + 1) ≤ d * (n / d) := Nat.mul_le_mul_left d hk
        have h4 : d * (n / d) = n := Nat.mul_div_cancel' hdn
        have h5 : d * (k + 1) = d * k + d := by ring
        linarith
      · apply Nat.div_eq_of_lt_le
        · linarith [hlo]
        · have h6 : (k + 1) * d = d * k + d := by ring
          linarith
  rw [hset, Nat.card_Ico]
  omega

lemma getGroupNat_fiber (gh gw h w g : Nat) (hgh : 0 < gh) (hgw : 0 < gw)
    (hdh : gh ∣ h) (hdw : gw ∣ w) (hg : g < (h / gh) * (w / gw)) :
    ((Finset.range h ×ˢ Finset.range w).filter
        (fun rc => getGroupNat rc.1 rc.2 gh gw w = g)).card = gh * gw := by
  have hWpos : 0 < w / gw := by
    rcases Nat.eq_zero_or_pos (w / gw) with h0 | h0
    · rw [h0, Nat.mul_zero] at hg
      exact absurd hg (Nat.not_lt_zero g)
    · exact h0
  have hgr : g / (w / gw) < h / gh := (Nat.div_lt_iff_lt_mul hWpos).mpr hg
  have hgc : g % (w / gw) < w / gw := Nat.mod_lt g hWpos
  have hsplit : ∀ rc ∈ Finset.range h ×ˢ Finset.range w,
      (getGroupNat rc.1 rc.2 gh gw w = g
        ↔ (rc.1 / gh = g / (w / gw) ∧ rc.2 / gw = g % (w / gw))) := by
    rintro ⟨r, c⟩ hm
    rw [Finset.mem_product, Finset.mem_range, Finset.mem_range] at hm
    unfold getGroupNat
    have hcW : c / gw < w / gw := Nat.div_lt_div_of_lt_of_dvd hdw hm.2
    constructor
    · intro he
      constructor
      · rw [← he, Nat.add_mul_div_left _ _ hWpos, Nat.div_eq_of_lt hcW, Nat.zero_add]
      · rw [← he, Nat.add_mul_mod_self_left, Nat.mod_eq_of_lt hcW]
    · rintro ⟨hr, hc⟩
      rw [hr, hc]
      exact Nat.mod_add_div g (w / gw)
  rw [Finset.filter_congr hsplit,
    Finset.filter_product (fun a => a / gh = g / (w / gw)) (fun b => b / gw = g % (w / gw)),
    Finset.card_product,
    range_filter_div_eq h gh (g / (w / gw)) hgh hdh hgr,
    range_filter_div_eq w gw (g % (w / gw)) hgw hdw hgc]

/-- C3: `getGroup` computes exactly the spec's box formula
⌊c/gw⌋ + (w/gw)·⌊r/gh⌋; on a board whose dimensions the group dimensions
divide it agrees with the natural-number index `c/gw + (w/gw)·(r/gh)`, and
that index partitions the h·w cells into exactly (h/gh)·(w/gw) groups of
equal size gh·gw: every in-range cell gets an index below (h/gh)·(w/gw), and
every such index owns exactly gh·gw cells. -/
theorem getGroup_partitions (r c gh gw h w : Nat)
    (hgh : 0 < gh) (hgw : 0 < gw) (hdh : gh ∣ h) (hdw : gw ∣ w) :
    getGroup (r : ℚ) (c : ℚ) (gh : ℚ) (gw : ℚ) ((h : ℚ), (w : ℚ))
        = groupIndexSpec (r : ℚ) (c : ℚ) (gh : ℚ) (gw : ℚ) (w : ℚ)
    ∧ getGroup (r : ℚ) (c : ℚ) (gh : ℚ) (gw : ℚ) ((h : ℚ), (w : ℚ))
        = (getGroupNat r c gh gw w : ℚ)
    ∧ (r < h → c < w → getGroupNat r c gh gw w < (h / gh) * (w / gw))
    ∧ (∀ g ∈ Finset.range ((h / gh) * (w / gw)),
        ((Finset.range h ×ˢ Finset.range w).filter
            (fun rc => getGroupNat rc.1 rc.2 gh gw w = g)).card = gh * gw) :=
  ⟨rfl,
   getGroup_eq_getGroupNat r c gh gw h w hgw hdw,
   fun hr hc => getGroupNat_lt r c gh gw h w hdh hdw hr hc,
   fun g hg => getGroupNat_fiber gh gw h w g hgh hgw hdh hdw (Finset.mem_range.mp hg)⟩

/-- C3 witness: the classic 9×9 board with 3×3 boxes, at cell (4, 7). -/
theorem getGroup_partitions_witness :
    getGroup ((4 : Nat) : ℚ) ((7 : Nat) : ℚ) ((3 : Nat) : ℚ) ((3 : Nat) : ℚ)
        (((9 : Nat) : ℚ), ((9 : Nat) : ℚ))
        = groupIndexSpec ((4 : Nat) : ℚ) ((7 : Nat) : ℚ) ((3 : Nat) : ℚ) ((3 : Nat) : ℚ)
            ((9 : Nat) : ℚ)
    ∧ getGroup ((4 : Nat) : ℚ) ((7 : Nat) : ℚ) ((3 : Nat) : ℚ) ((3 : Nat) : ℚ)
        (((9 : Nat) : ℚ), ((9 : Nat) : ℚ)) = (getGroupNat 4 7 3 3 9 : ℚ)
    ∧ (4 < 9 → 7 < 9 → getGroupNat 4 7 3 3 9 < (9 / 3) * (9 / 3))
    ∧ (∀ g ∈ Finset.range ((9 / 3) * (9 / 3)),
        ((Finset.range 9 ×ˢ Finset.range 9).filter
            (fun rc => getGroupNat rc.1 rc.2 3 3 9 = g)).card = 3 * 3) :=
  getGroup_partitions 4 7 3 3 9 9 (by decide) (by decide) (by decide) (by decide)

/-!  ## Claims C7 and C8: schema migration -/

lemma upgrade_version_stamped (f : String → String) (config : RawConfig) :
    (upgrade f config).version = some CURR_VER := rfl

lemma upgrade_of_current (f : String → String) (config : RawConfig)
    (h : config.version = some CURR_VER) : upgrade f config = config := by
  unfold upgrade
  rw [h]
  norm_num [CURR_VER]
  rw [show (3 : ℚ)/2 = CURR_VER from by norm_num [CURR_VER], ← h]

/-- C7: migration is idempotent — a second `upgrade` (even with a different
colour resolver) leaves the migrated document unchanged — and upgrading a
document already at the current schema version 1.5 is the identity on
content: no field is mutated and the version stays 1.5. -/
theorem migrate_idempotent (f g : String → String) (config : RawConfig) :
    upgrade g (upgrade f config) = upgrade f config
    ∧ (config.version = some CURR_VER → upgrade f config = config) :=
  ⟨upgrade_of_current g _ (upgrade_version_stamped f config),
   fun h => upgrade_of_current f config h⟩

/-- C7 witness: idempotence and identity-at-current-version on a concrete
1.5 document. -/
theorem migrate_idempotent_witness :
    (upgrade id (upgrade id rawCurrentDoc) = upgrade id rawCurrentDoc
      ∧ upgrade id rawCurrentDoc = rawCurrentDoc) :=
  ⟨(migrate_idempotent id id rawCurrentDoc).1,
   (migrate_idempotent id id rawCurrentDoc).2 rfl⟩

/-- C8: upgrading a version-1.0 document stamps schema version 1.5, rewrites
every cell's legacy boolean `isGuess` flag into the indexed model
(`true → guess 1`, `false` or absent `→ guess 0`, flag removed), installs
exactly the 3 default guess styles with the small/pencil-mark style at index
2, and initialises the elapsed-seconds counter to 0.  (The two pre-existing
default styles go through the colour resolver of the 1.2 step.) -/
theorem migrate_ten_installs_guess_model (f : String → String) (config : RawConfig)
    (hv : config.version = some 1) (hty : config.type = none) :
    (upgrade f config).version = some CURR_VER
    ∧ (upgrade f config).guesses
        = [{ color := f "#ffffff", isSmall := false, editable := some false },
           { color := f "#ff0000", isSmall := false, editable := some true },
           { color := "#ff0000", isSmall := true, editable := some true }]
    ∧ (upgrade f config).guesses.length = 3
    ∧ ((upgrade f config).guesses.get? 2).map RawGuessStyle.isSmall = some true
    ∧ (upgrade f config).cells = config.cells.map (·.map fun cell =>
        { cell with
          guess := some (if cell.isGuess.getD false then 1 else 0),
          isGuess := none })
    ∧ (upgrade f config).elapsed = some 0 := by
  unfold upgrade
  rw [hv, hty]
  norm_num
  refine ⟨rfl, rfl, ⟨_, rfl, rfl⟩, ?_⟩
  intro a _ b _
  split <;> norm_num

/-- C8 witness: the 1.0→1.5 migration evaluated on a concrete legacy
document with one `isGuess=true` and one `isGuess=false` cell. -/
theorem migrate_ten_installs_guess_model_witness :
    (upgrade id rawTenDoc).version = some CURR_VER
    ∧ (upgrade id rawTenDoc).guesses
        = [{ color := id "#ffffff", isSmall := false, editable := some false },
           { color := id "#ff0000", isSmall := false, editable := some true },
           { color := "#ff0000", isSmall := true, editable := some true }]
    ∧ (upgrade id rawTenDoc).guesses.length = 3
    ∧ ((upgrade id rawTenDoc).guesses.get? 2).map RawGuessStyle.isSmall = some true
    ∧ (upgrade id rawTenDoc).cells = rawTenDoc.cells.map (·.map fun cell =>
        { cell with
          guess := some (if cell.isGuess.getD false then 1 else 0),
          isGuess := none })
    ∧ (upgrade id rawTenDoc).elapsed = some 0 :=
  migrate_ten_installs_guess_model id rawTenDoc rfl rfl

/-!  ## Claim C1: small guesses are wildcards in the uniqueness check -/

lemma dedup_length_eq_iff {α : Type} [DecidableEq α] (l : List α) :
    l.dedup.length = l.length ↔ l.Nodup := by
  constructor
  · intro h
    rw [← List.dedup_eq_self]
    exact (List.dedup_sublist l).eq_of_length h
  · intro h
    rw [List.dedup_eq_self.mpr h]

lemma setKeys_cons (i : Nat) (w : String) (ws : List String) :
    setKeys i (w :: ws) = (if w = "" then Sum.inr i else Sum.inl w) :: setKeys (i + 1) ws := rfl

lemma setKeys_inr_ge (vs : List String) : ∀ (i j : Nat), Sum.inr j ∈ setKeys i vs → i ≤ j := by
  induction vs with
  | nil => intro i j h; exact absurd h (List.not_mem_nil _)
  | cons w ws ih =>
      intro i j h
      rw [setKeys_cons] at h
      rcases List.mem_cons.mp h with h1 | h2
      · split at h1
        · injection h1 with h1'
          omega
        · exact Sum.noConfusion h1
      · have := ih (i + 1) j h2
        omega

lemma setKeys_inl_mem (vs : List String) : ∀ (i : Nat) (v : String),
    Sum.inl v ∈ setKeys i vs ↔ (¬ v = "" ∧ v ∈ vs) := by
  induction vs with
  | nil => intro i v; simp [setKeys]
  | cons w ws ih =>
      intro i v
      rw [setKeys_cons, List.mem_cons, ih (i + 1) v, List.mem_cons]
      split
      · rename_i hw
        constructor
        · rintro (h1 | ⟨hne, hmem⟩)
          · exact Sum.noConfusion h1
          · exact ⟨hne, Or.inr hmem⟩
        · rintro ⟨hne, h1 | hmem⟩
          · exact absurd (h1.trans hw) hne
          · exact Or.inr ⟨hne, hmem⟩
      · rename_i hw
        constructor
        · rintro (h1 | ⟨hne, hmem⟩)
          · injection h1 with h1'
            exact ⟨by rw [h1']; exact hw, Or.inl h1'⟩
          · exact ⟨hne, Or.inr hmem⟩
        · rintro ⟨hne, h1 | hmem⟩
          · exact Or.inl (by rw [h1])
          · exact Or.inr ⟨hne, hmem⟩

lemma setKeys_nodup_iff (vs : List String) : ∀ (i : Nat),
    (setKeys i vs).Nodup ↔ (vs.filter (fun v => v ≠ "")).Nodup := by
  induction vs with
  | nil => intro i; simp [setKeys]
  | cons w ws ih =>
      intro i
      by_cases hw : w = ""
      · subst hw
        have hnot : Sum.inr i ∉ setKeys (i + 1) ws := fun h =>
          absurd (setKeys_inr_ge ws (i + 1) i h) (by omega)
        rw [setKeys_cons, if_pos rfl, List.nodup_cons, List.filter_cons]
        simp only [show (decide (("" : String) ≠ "")) = false from rfl, Bool.false_eq_true,
          if_false, hnot, not_false_iff, true_and]
        exact ih (i + 1)
      · rw [setKeys_cons, if_neg hw, List.nodup_cons, List.filter_cons,
          show (decide (w ≠ "")) = true from by simp [hw], if_pos rfl, List.nodup_cons,
          ih (i + 1), setKeys_inl_mem ws (i + 1) w, List.mem_filter]
        constructor
        · rintro ⟨h1, h2⟩
          exact ⟨fun hmem => h1 ⟨hw, hmem.1⟩, h2⟩
        · rintro ⟨h1, h2⟩
          exact ⟨fun hmem => h1 ⟨hmem.2, by simp [hw]⟩, h2⟩

lemma allUniqueTest_iff (gs : List GuessStyle) (cl : List Cell) :
    allUniqueTest gs cl = true
      ↔ ((cl.map (displayVal gs)).filter (fun v => v ≠ "")).Nodup := by
  show ((setKeys 0 (cl.map (displayVal gs))).dedup.length
      == (setKeys 0 (cl.map (displayVal gs))).length) = true ↔ _
  rw [beq_iff_eq, dedup_length_eq_iff, setKeys_nodup_iff]

/-- C1: in `allUnique`, the check every partition of `validate` goes through,
a cell whose active guess style is small contributes the wildcard `''` and is
excluded from the duplicate check (inserting it anywhere never changes the
verdict); the partition is judged unique iff the non-empty displayed
characters of the non-wildcard cells are pairwise distinct (empty cells are
keyed by their position, so they are mutually non-conflicting); and when the
partition is not unique, every member cell comes back with its error flag
set. -/
theorem allUnique_small_wildcard (gs : List GuessStyle) (cl l1 l2 : List Cell) (sc : Cell)
    (hsmall : isSmallGuess gs sc = true) :
    (allUniqueTest gs cl = true
        ↔ ((cl.map (displayVal gs)).filter (fun v => v ≠ "")).Nodup)
    ∧ allUniqueTest gs (l1 ++ sc :: l2) = allUniqueTest gs (l1 ++ l2)
    ∧ (allUniqueTest gs cl = false → ∀ cell ∈ (allUnique gs cl).2, cell.error = true) := by
  refine ⟨allUniqueTest_iff gs cl, ?_, ?_⟩
  · have hd : displayVal gs sc = "" := by
      unfold displayVal
      rw [hsmall]
      rfl
    have hkey : (((l1 ++ sc :: l2).map (displayVal gs)).filter (fun v => v ≠ ""))
        = (((l1 ++ l2).map (displayVal gs)).filter (fun v => v ≠ "")) := by
      simp [hd, List.filter_append]
    have h1 := allUniqueTest_iff gs (l1 ++ sc :: l2)
    have h2 := allUniqueTest_iff gs (l1 ++ l2)
    rw [hkey] at h1
    cases hA : allUniqueTest gs (l1 ++ sc :: l2) with
    | true => exact (h2.mpr (h1.mp hA)).symm
    | false =>
        cases hB : allUniqueTest gs (l1 ++ l2) with
        | false => rfl
        | true => exact absurd (h1.mpr (h2.mp hB)) (by simp [hA])
  · intro hfalse cell hcell
    have h2 : (allUnique gs cl).2 = cl.map (fun cell => { cell with error := true }) := by
      show (if allUniqueTest gs cl then cl
          else cl.map (fun cell => { cell with error := true })) = _
      rw [hfalse]
      rfl
    rw [h2] at hcell
    obtain ⟨c0, _, rfl⟩ := List.mem_map.mp hcell
    rfl

/-- C1 witness: two conflicting normal cells and a small-guess cell with the
same character, on the default guess styles. -/
theorem allUnique_small_wildcard_witness :
    (allUniqueTest defaultGuesses
          [{ val := "5", guess := 1, group := 0 }, { val := "5", guess := 1, group := 0 }] = true
        ↔ ((([{ val := "5", guess := 1, group := 0 },
              { val := "5", guess := 1, group := 0 }] : List Cell).map
                (displayVal defaultGuesses)).filter (fun v => v ≠ "")).Nodup)
    ∧ allUniqueTest defaultGuesses
        ([{ val := "7", guess := 1, group := 0 }]
          ++ ({ val := "7", guess := 2, group := 0 } : Cell)
            :: [{ val := "8", guess := 0, group := 0 }])
      = allUniqueTest defaultGuesses
          ([{ val := "7", guess := 1, group := 0 }] ++ [{ val := "8", guess := 0, group := 0 }])
    ∧ (allUniqueTest defaultGuesses
          [{ val := "5", guess := 1, group := 0 }, { val := "5", guess := 1, group := 0 }]
            = false →
        ∀ cell ∈ (allUnique defaultGuesses
          [{ val := "5", guess := 1, group := 0 }, { val := "5", guess := 1, group := 0 }]).2,
          cell.error = true) :=
  allUnique_small_wildcard defaultGuesses
    [{ val := "5", guess := 1, group := 0 }, { val := "5", guess := 1, group := 0 }]
    [{ val := "7", guess := 1, group := 0 }] [{ val := "8", guess := 0, group := 0 }]
    { val := "7", guess := 2, group := 0 } (by decide)

/-!  ## Claim C4: deleting a group compacts the cell references -/

lemma cellAt_mapCells (f : Cell → Cell) (hf : f defaultCell = defaultCell) (g : Cells)
    (r c : Nat) : cellAt (g.map (·.map f)) r c = f (cellAt g r c) := by
  unfold cellAt
  rw [getD_map (·.map f) g r [] [] rfl, getD_map f _ c defaultCell defaultCell hf]

/-- C4 counterexample: on a document with a single group whose cell validly
references it, `deleteGroup 0` leaves the cell referencing index 0 of a now
empty groups list — a dangling reference, refuting the unconditional
no-dangling-reference claim. -/
theorem deleteGroup_dangling_counterexample :
    (∀ row ∈ oneGroupConfig.cells, ∀ cell ∈ row,
      cell.group < oneGroupConfig.groups.length)
    ∧ 0 < oneGroupConfig.groups.length
    ∧ ¬ (∀ row ∈ (deleteGroup 0 oneGroupConfig).cells, ∀ cell ∈ row,
          cell.group < (deleteGroup 0 oneGroupConfig).groups.length) := by
  decide

/-- C4 (amended): `deleteGroup i` removes the group (`groups` shrinks by one)
and rewrites every cell whose reference was ≥ `i` to `max 0 (group - 1)`;
when the document still has a group left after the deletion
(`2 ≤ groups.length`), every cell reference stays a valid index into the
shrunk list.  (With a single group the deletion leaves cells referencing
index 0 of an empty list, as the counterexample shows.) -/
theorem deleteGroup_compacts_indices (c : Config) (i : Nat)
    (hi : i < c.groups.length)
    (hvalid : ∀ row ∈ c.cells, ∀ cell ∈ row, cell.group < c.groups.length)
    (h2 : 2 ≤ c.groups.length) :
    (deleteGroup i c).groups.length = c.groups.length - 1
    ∧ (∀ r col, cellAt (deleteGroup i c).cells r col
        = (if (cellAt c.cells r col).group ≥ i
           then { cellAt c.cells r col with group := max 0 ((cellAt c.cells r col).group - 1) }
           else cellAt c.cells r col))
    ∧ (∀ row ∈ (deleteGroup i c).cells, ∀ cell ∈ row,
        cell.group < (deleteGroup i c).groups.length) := by
  have hlen1 : (deleteGroup i c).groups.length = c.groups.length - 1 := by
    show (c.groups.eraseIdx i).length = c.groups.length - 1
    rw [List.length_eraseIdx, if_pos hi]
  refine ⟨hlen1, ?_, ?_⟩
  · intro r col
    exact cellAt_mapCells _ (by split <;> rfl) c.cells r col
  · intro row hrow cell hcell
    rw [hlen1]
    obtain ⟨row0, hrow0, rfl⟩ := List.mem_map.mp hrow
    obtain ⟨cell0, hcell0, rfl⟩ := List.mem_map.mp hcell
    have hv := hvalid row0 hrow0 cell0 hcell0
    show (if cell0.group ≥ i then ({ cell0 with group := max 0 (cell0.group - 1) } : Cell)
        else cell0).group < c.groups.length - 1
    split
    · show max 0 (cell0.group - 1) < c.groups.length - 1
      omega
    · omega

/-- C4 witness: deleting group index 2 from a 5-group document whose cells
reference groups 4 and 1. -/
theorem deleteGroup_compacts_indices_witness :
    (deleteGroup 2 fiveGroupConfig).groups.length = fiveGroupConfig.groups.length - 1
    ∧ (∀ r col, cellAt (deleteGroup 2 fiveGroupConfig).cells r col
        = (if (cellAt fiveGroupConfig.cells r col).group ≥ 2
           then { cellAt fiveGroupConfig.cells r col with
                  group := max 0 ((cellAt fiveGroupConfig.cells r col).group - 1) }
           else cellAt fiveGroupConfig.cells r col))
    ∧ (∀ row ∈ (deleteGroup 2 fiveGroupConfig).cells, ∀ cell ∈ row,
        cell.group < (deleteGroup 2 fiveGroupConfig).groups.length) :=
  deleteGroup_compacts_indices fiveGroupConfig 2 (by decide) (by decide) (by decide)

/-!  ## Claim C9: the undo log's cursor discipline -/

section

attribute [local irreducible] allUniqueTest allUniqueCoords defaultValidate xDiagonals
  samuraiExtension validateCellsOps validateCells validateConfig validatedConfig

lemma undo_undoHistory (s : AppState) : (undo s).undoHistory = s.undoHistory := by
  unfold undo
  split
  · cases hg : s.undoHistory.get? s.undoIndex.toNat with
    | none => rfl
    | some rec =>
        cases rec with
        | full pc nc => exact (applyValidate_undoHistory _ _).trans rfl
        | diff rc pv nv => exact (applyValidate_undoHistory _ _).trans rfl
  · rfl

lemma undo_inv (s : AppState) (h0 : -1 ≤ s.undoIndex)
    (hlen : s.undoIndex < (s.undoHistory.length : Int)) :
    -1 ≤ (undo s).undoIndex ∧ (undo s).undoIndex < ((undo s).undoHistory.length : Int) := by
  rw [undo_undoHistory]
  unfold undo
  split
  · rename_i hguard
    cases hg : s.undoHistory.get? s.undoIndex.toNat with
    | none => exact ⟨h0, hlen⟩
    | some rec =>
        cases rec with
        | full pc nc =>
            show -1 ≤ s.undoIndex - 1 ∧ s.undoIndex - 1 < (s.undoHistory.length : Int)
            omega
        | diff rc pv nv =>
            show -1 ≤ s.undoIndex - 1 ∧ s.undoIndex - 1 < (s.undoHistory.length : Int)
            omega
  · exact ⟨h0, hlen⟩

lemma redo_noop_addUndoDiff (s : AppState) (coords : Nat × Nat) (pv nv : String)
    (h0 : -1 ≤ s.undoIndex) (hlen : s.undoIndex < (s.undoHistory.length : Int)) :
    redo (addUndoDiff coords pv nv s) = addUndoDiff coords pv nv s := by
  have hng : ¬ ((addUndoDiff coords pv nv s).undoIndex
      < ((addUndoDiff coords pv nv s).undoHistory.length : Int) - 1) := by
    show ¬ (s.undoIndex + 1
      < ((s.undoHistory.take (s.undoIndex + 1).toNat
          ++ [UndoRecord.diff coords pv nv]).length : Int) - 1)
    simp only [List.length_append, List.length_take, List.length_cons, List.length_nil]
    omega
  unfold redo
  rw [if_neg hng]

lemma redo_noop_addUndoFull (s : AppState) (pc nc : Cells)
    (h0 : -1 ≤ s.undoIndex) (hlen : s.undoIndex < (s.undoHistory.length : Int)) :
    redo (addUndoFull pc nc s) = addUndoFull pc nc s := by
  have hng : ¬ ((addUndoFull pc nc s).undoIndex
      < ((addUndoFull pc nc s).undoHistory.length : Int) - 1) := by
    show ¬ (s.undoIndex + 1
      < ((s.undoHistory.take (s.undoIndex + 1).toNat
          ++ [UndoRecord.full pc nc]).length : Int) - 1)
    simp only [List.length_append, List.length_take, List.length_cons, List.length_nil]
    omega
  unfold redo
  rw [if_neg hng]

/-- C9: recording a new edit (`addUndoFull` or `addUndoDiff`) truncates every
redo record beyond the current cursor (`slice(0, undoIndex + 1)`), appends the
new record, and advances the cursor to it; consequently, after any number `n`
of undos followed by a new edit, `redo()` is a no-op that leaves the whole
app state — document included — unchanged.  The hypotheses are the cursor
invariant of the initial state, which the `n` undos preserve. -/
theorem record_truncates_and_redo_noop (s : AppState) (n : Nat) (coords : Nat × Nat)
    (pv nv : String) (pc nc : Cells)
    (h0 : -1 ≤ s.undoIndex) (hlen : s.undoIndex < (s.undoHistory.length : Int)) :
    ((addUndoDiff coords pv nv (undo^[n] s)).undoHistory
        = (undo^[n] s).undoHistory.take ((undo^[n] s).undoIndex + 1).toNat
          ++ [UndoRecord.diff coords pv nv])
    ∧ (addUndoDiff coords pv nv (undo^[n] s)).undoIndex = (undo^[n] s).undoIndex + 1
    ∧ ((addUndoFull pc nc (undo^[n] s)).undoHistory
        = (undo^[n] s).undoHistory.take ((undo^[n] s).undoIndex + 1).toNat
          ++ [UndoRecord.full pc nc])
    ∧ (addUndoFull pc nc (undo^[n] s)).undoIndex = (undo^[n] s).undoIndex + 1
    ∧ redo (addUndoDiff coords pv nv (undo^[n] s)) = addUndoDiff coords pv nv (undo^[n] s)
    ∧ redo (addUndoFull pc nc (undo^[n] s)) = addUndoFull pc nc (undo^[n] s) := by
  have hinv : -1 ≤ (undo^[n] s).undoIndex
      ∧ (undo^[n] s).undoIndex < ((undo^[n] s).undoHistory.length : Int) := by
    induction n with
    | zero => exact ⟨h0, hlen⟩
    | succ n ih =>
        rw [Function.iterate_succ_apply']
        exact undo_inv _ ih.1 ih.2
  exact ⟨rfl, rfl, rfl, rfl,
    redo_noop_addUndoDiff _ coords pv nv hinv.1 hinv.2,
    redo_noop_addUndoFull _ pc nc hinv.1 hinv.2⟩

end

/-- C9 witness: one undo on a concrete state, then a fresh record of each
kind; the redo is a no-op. -/
theorem record_truncates_and_redo_noop_witness :
    ((addUndoDiff (0, 0) "1" "2" (undo^[1] otherState)).undoHistory
        = (undo^[1] otherState).undoHistory.take ((undo^[1] otherState).undoIndex + 1).toNat
          ++ [UndoRecord.diff (0, 0) "1" "2"])
    ∧ (addUndoDiff (0, 0) "1" "2" (undo^[1] otherState)).undoIndex
        = (undo^[1] otherState).undoIndex + 1
    ∧ ((addUndoFull [] [] (undo^[1] otherState)).undoHistory
        = (undo^[1] otherState).undoHistory.take ((undo^[1] otherState).undoIndex + 1).toNat
          ++ [UndoRecord.full [] []])
    ∧ (addUndoFull [] [] (undo^[1] otherState)).undoIndex = (undo^[1] otherState).undoIndex + 1
    ∧ redo (addUndoDiff (0, 0) "1" "2" (undo^[1] otherState))
        = addUndoDiff (0, 0) "1" "2" (undo^[1] otherState)
    ∧ redo (addUndoFull [] [] (undo^[1] otherState)) = addUndoFull [] [] (undo^[1] otherState) :=
  record_truncates_and_redo_noop otherState 1 (0, 0) "1" "2" [] [] (by decide) (by decide)

/-!  ## Claim C6: `validate` on an `Other` document -/

/-- C6 counterexample: on a document of type `other` whose cell already
carries an error flag, the flag is still set after `validate` — the claim
that "after the call no cell carries an error flag" fails. -/
theorem validate_other_counterexample :
    flaggedOtherState.config.type = "other"
    ∧ (cellAt (validateApp flaggedOtherState).config.cells 0 0).error = true := by
  decide

/-- C6 (amended): for documents of type `other`, `validate` returns
immediately without touching anything — the state (and so every pre-existing
error flag) is exactly unchanged, no validation message is set and no solved
signal is raised. -/
theorem validate_other_noop (s : AppState) (h : s.config.type = "other") :
    validateApp s = s ∧ validateConfig s.config = none := by
  have h2 := validateConfig_of_other s.config h
  refine ⟨?_, h2⟩
  unfold validateApp applyValidate
  rw [h2]

/-- C6 witness: the amended no-op evaluated on a concrete `other` state. -/
theorem validate_other_noop_witness :
    validateApp otherState = otherState ∧ validateConfig otherState.config = none :=
  validate_other_noop otherState rfl

end Sudoku
